import Mathlib

/-!
Verification development for the asyncoro coroutine runtime (asyncoro.py).

The definitions below are a shallow embedding of the Python source:
  * length-prefixed socket framing (_AsynCoroSocket._sync_send_msg /
    _sync_recv_msg),
  * the RLock primitive (RLock.acquire / RLock.release),
  * channels (AsyncChannel.send, SyncChannel.send / deliver / receive),
  * the scheduler core (AsynCoro._add, _suspend, _resume, _throw,
    _terminate_coro, _swap_generator, the timer-expiry loop and one
    iteration of the _schedule run loop).

Python byte strings are lists of naturals, the monotonic clock is the
rationals, Python object values are the small inductive type PyVal, and
generator objects are opaque handles (naturals) whose observable behaviour
during a scheduling step is an explicit body action.
-/

namespace Asyncoro

/-! ## Length-prefixed framing (C2)

Source: _AsynCoroSocket._sync_send_msg and _sync_recv_msg, together with
_sync_sendall and _sync_recvall, modelled over a lossless byte stream.
-/
/-- Bytes of struct.pack with format \x3eL applied to a payload length:
four bytes, big endian, unsigned. -/
def packU32 (n : Nat) : List Nat :=
  [n / 2 ^ 24 % 256, n / 2 ^ 16 % 256, n / 2 ^ 8 % 256, n % 256]

/-- Inverse of packU32, struct.unpack of a big-endian unsigned 32-bit word. -/
def unpackU32 : List Nat → Nat
  | [a, b, c, d] => ((a * 256 + b) * 256 + c) * 256 + d
  | _ => 0

/-- Model of _sync_recvall on a stream: read exactly n bytes; a short read
(peer closed before n bytes arrived) yields the empty string with the
stream exhausted. Returns (data, remaining stream). -/
def sync_recvall (n : Nat) (stream : List Nat) : List Nat × List Nat :=
  if n ≤ stream.length then (stream.take n, stream.drop n) else ([], [])

/-- Model of _sync_send_msg: the bytes written to the stream are the
payload length packed big endian followed by the payload. -/
def sync_send_msg (data : List Nat) : List Nat :=
  packU32 data.length ++ data

/-- Model of _sync_recv_msg: read a 4-byte length header, then that many
payload bytes; either short read returns the empty string. Returns
(payload, remaining stream). -/
def sync_recv_msg (stream : List Nat) : List Nat × List Nat :=
  let hdr := sync_recvall 4 stream
  if hdr.1.length ≠ 4 then ([], hdr.2)
  else
    let n := unpackU32 hdr.1
    let dat := sync_recvall n hdr.2
    if dat.1.length ≠ n then ([], dat.2) else (dat.1, dat.2)

/-! ## RLock (C9)

Source: class RLock. Coroutines are opaque ids. acquire returns some flag
when it completes immediately and none when the caller is appended to the
wait list and suspended. release reports a RuntimeError by err = true,
returning the unmodified lock (the source raises before any mutation);
woken is the coroutine taken from the head of the wait list, if any, whose
pending acquire then runs. -/
abbrev Cid := Nat

structure RLockSt where
  owner : Option Cid
  depth : Int
  waitlist : List Cid
  deriving DecidableEq, Repr

def RLockSt.init : RLockSt := ⟨none, 0, []⟩

/-- Model of RLock.acquire for caller cur. none means the caller was
appended to the wait list and suspended via coro._await_. -/
def RLock.acquire (l : RLockSt) (cur : Cid) (blocking : Bool) :
    Option Bool × RLockSt :=
  if ¬blocking ∧ ¬(l.owner = none ∨ l.owner = some cur) then (some false, l)
  else
    match l.owner with
    | none => (some true, { l with owner := some cur, depth := 1 })
    | some o =>
      if o = cur then (some true, { l with depth := l.depth + 1 })
      else (none, { l with waitlist := l.waitlist ++ [cur] })

/-- The outcome of RLock.release: a normal return, the RuntimeError for a
lock owned by another coroutine, or the AttributeError raised while the
RuntimeError message is being formatted when the lock is unowned (the
format string reads self owner name with the owner None). -/
inductive RelErr where
  | ok
  | runtime
  | attr
  deriving DecidableEq, Repr

structure RelRes where
  err : RelErr
  lock : RLockSt
  woken : Option Cid
  deriving DecidableEq, Repr

/-- Model of RLock.release for caller cur. The source first tests
owner != coro and raises on failure; building the RuntimeError message
reads the owner's name attribute, which on an unowned lock (owner None)
raises AttributeError before the RuntimeError is constructed. Either
error is raised before any field is touched, so the lock is returned
unchanged in both cases. -/
def RLock.release (l : RLockSt) (cur : Cid) : RelRes :=
  match l.owner with
  | Option.none => ⟨RelErr.attr, l, none⟩
  | some o =>
    if o = cur then
      let d := l.depth - 1
      if d = 0 then
        match l.waitlist with
        | [] => ⟨RelErr.ok, ⟨none, d, []⟩, none⟩
        | w :: rest => ⟨RelErr.ok, ⟨none, d, rest⟩, some w⟩
      else ⟨RelErr.ok, { l with depth := d }, none⟩
    else ⟨RelErr.runtime, l, none⟩

/-! ## Python values

Payloads, resume updates, alarm values and coro._value are arbitrary
Python objects; the scheduler also stores generator objects in
coro._value. PyVal covers None, data payloads (as integers) and
generator objects (opaque handles). -/
abbrev Gen := Nat

inductive PyVal where
  | none
  | num (n : Int)
  | gen (g : Gen)
  deriving DecidableEq, Repr

abbrev CName := Nat

/-- Model of class ChannelMessage: the wrapper put on every channel
message, carrying the channel name and the payload. -/
structure ChannelMessage where
  channel : CName
  message : PyVal
  deriving DecidableEq, Repr

/-! ## AsyncChannel (C8)

Source: AsyncChannel.send. Subscribers are opaque ids; the result of
calling a subscriber's own send method (0 for success, nonzero for
failure, e.g. -1 from Coro.send on a removed coroutine) is supplied as
the function subSend, since it is decided outside AsyncChannel.send. -/
abbrev Sub := Nat

structure AsyncChannel where
  name : CName
  transform : Option (CName → PyVal → Option PyVal)
  subscribers : List Sub
  min_receivers : Nat
  event : Bool

/-- The transform application shared by send and deliver: no transform
passes the message through, a transform may drop it by returning none. -/
def applyTransform (tr : Option (CName → PyVal → Option PyVal))
    (name : CName) (message : PyVal) : Option PyVal :=
  match tr with
  | Option.none => some message
  | some f => f name message

/-- Model of AsyncChannel.send: apply the transform (a none result drops
the message and returns 0), else wrap the payload as (channel-name,
payload) and call each current subscriber's send; the int returned is 0
minus the number of failed deliveries. The second component lists the
(subscriber, wrapped message) deliveries performed. -/
def AsyncChannel.send (ch : AsyncChannel) (message : PyVal)
    (subSend : Sub → Int) : Int × List (Sub × ChannelMessage) :=
  match applyTransform ch.transform ch.name message with
  | Option.none => (0, [])
  | some m =>
    let msg : ChannelMessage := ⟨ch.name, m⟩
    (ch.subscribers.foldl (fun r sub => if subSend sub ≠ 0 then r - 1 else r) 0,
     ch.subscribers.map (fun sub => (sub, msg)))

/-! ## SyncChannel (C7)

Source: class SyncChannel. recipients is the list of coroutines that
called receive since the last delivery; it is NOT the set of coroutines
currently blocked in receive on the channel, because receive takes a
timeout: a receiver whose timer fires is resumed with the alarm value
but stays on the recipient list (nothing prunes the list except a
delivery). The coroutines actually blocked live in the scheduler, so
the model pairs the channel with that waiting set explicitly (SCState).
The gate event mirrors the source: set at construction when
min_receivers is 0, set by receive when the recipient count reaches
exactly min_receivers, cleared whenever the recipient list is emptied
by send or deliver. deliver checks the gate once: it proceeds at once
when at least min_receivers recipients are listed (or the event is
already set), and otherwise blocks in event.wait(); once woken it
proceeds without rechecking, so the delivering tail of the call is a
separate function (deliverFinish) that can also run at a later state. -/
structure SyncChannel where
  name : CName
  transform : Option (CName → PyVal → Option PyVal)
  recipients : List Cid
  min_receivers : Nat
  event : Bool

/-- Model of SyncChannel construction. -/
def SyncChannel.init (name : CName) (transform : Option (CName → PyVal → Option PyVal))
    (min_receivers : Nat) : SyncChannel :=
  ⟨name, transform, [], min_receivers, min_receivers = 0⟩

/-- Model of SyncChannel.receive (the channel-side effect): append the
coroutine to the recipients and set the gate event when the count
reaches min_receivers. The coroutine itself then suspends via _await_. -/
def SyncChannel.receive (ch : SyncChannel) (coro : Cid) : SyncChannel :=
  let r := ch.recipients ++ [coro]
  { ch with recipients := r,
            event := if r.length = ch.min_receivers then true else ch.event }

/-- A sync channel together with the scheduler-side set of coroutines
currently blocked in a receive on it. The two diverge exactly when a
receive timeout fires: the coroutine leaves waiting but stays on the
channel's recipient list. -/
structure SCState where
  ch : SyncChannel
  waiting : List Cid

/-- A fresh sync channel: nobody has called receive, nobody waits. -/
def SCState.init (name : CName) (transform : Option (CName → PyVal → Option PyVal))
    (min_receivers : Nat) : SCState :=
  ⟨SyncChannel.init name transform min_receivers, []⟩

/-- Model of SyncChannel.receive from the caller coroutine c: the
channel-side effect (append to recipients, maybe set the event) followed
by coro _await_ with the given timeout and alarm value, which blocks c. -/
def SCState.recv (s : SCState) (c : Cid) : SCState :=
  ⟨s.ch.receive c, s.waiting ++ [c]⟩

/-- The receive timeout of a blocked receiver fires: the scheduler
resumes c with the alarm value, so c is no longer blocked, but the
channel is untouched - c stays on the recipient list. -/
def SCState.rtimeout (s : SCState) (c : Cid) : SCState :=
  ⟨s.ch, s.waiting.erase c⟩

/-- Model of SyncChannel.send: a filtered message leaves everything
untouched; otherwise _proceed_ is called on every listed recipient -
those still blocked are handed the wrapped message, a resume of a
no-longer-waiting recipient is logged and ignored - then the recipient
list is emptied and the event cleared. -/
def SCState.sendStep (s : SCState) (message : PyVal) :
    SCState × List (Cid × ChannelMessage) :=
  match applyTransform s.ch.transform s.ch.name message with
  | Option.none => (s, [])
  | some m =>
    (⟨{ s.ch with recipients := [], event := false },
      s.waiting.filter (fun c => decide (¬ c ∈ s.ch.recipients))⟩,
     (s.ch.recipients.filter (fun c => decide (c ∈ s.waiting))).map
       (fun c => (c, (⟨s.ch.name, m⟩ : ChannelMessage))))

/-- The tail of SyncChannel.deliver after its gate: the source never
rechecks the recipient count once event.wait() has returned, so this
runs against whatever state the channel has then. A filtered message
raises StopIteration(True) with nothing delivered and nothing cleared;
otherwise every listed recipient gets _proceed_ (only the still-blocked
ones are handed the wrapped message), the list is emptied, the event
cleared and True returned. -/
def SCState.deliverFinish (s : SCState) (message : PyVal) :
    SCState × Bool × List (Cid × ChannelMessage) :=
  match applyTransform s.ch.transform s.ch.name message with
  | Option.none => (s, true, [])
  | some m =>
    (⟨{ s.ch with recipients := [], event := false },
      s.waiting.filter (fun c => decide (¬ c ∈ s.ch.recipients))⟩,
     true,
     (s.ch.recipients.filter (fun c => decide (c ∈ s.waiting))).map
       (fun c => (c, (⟨s.ch.name, m⟩ : ChannelMessage))))

/-- Model of a SyncChannel.deliver call: none when the call blocks in
event.wait() (fewer than min_receivers listed recipients and the event
clear); when the recipient count passes the gate - or the event is
already set, making event.wait() return at once - the delivering tail
runs in the same state. A blocked deliver completes later through
deliverFinish at the then-current state, without rechecking the gate. -/
def SCState.deliver (s : SCState) (message : PyVal) :
    Option (SCState × Bool × List (Cid × ChannelMessage)) :=
  if s.ch.min_receivers ≤ s.ch.recipients.length ∨ s.ch.event = true
  then some (s.deliverFinish message)
  else Option.none

/-- Channel states reachable through construction, receive calls,
receive timeouts, send calls and completed deliver calls (the latter as
the gate-free deliverFinish, which covers both a deliver that proceeded
at once and one resumed from event.wait at a later state). -/
inductive SCReach : SCState → Prop where
  | init (name : CName) (transform : Option (CName → PyVal → Option PyVal))
      (min_receivers : Nat) : SCReach (SCState.init name transform min_receivers)
  | recv {s : SCState} (c : Cid) : SCReach s → SCReach (s.recv c)
  | rtimeout {s : SCState} (c : Cid) : SCReach s → SCReach (s.rtimeout c)
  | send {s : SCState} (m : PyVal) : SCReach s → SCReach (s.sendStep m).1
  | deliverFin {s : SCState} (m : PyVal) : SCReach s → SCReach (s.deliverFinish m).1

/-- C7 fixture: min_receivers 2, no transform; coroutine 1 receives and
times out (stays listed, no longer waiting), then coroutine 2 receives. -/
def scFixture : SCState :=
  (((SCState.init 3 Option.none 2).recv 1).rtimeout 1).recv 2

/-- C7 fixture: a channel whose transform filters every message, with
recipient 7 waiting. -/
def scFixtureF : SCState :=
  (SCState.init 4 (some (fun _ _ => Option.none)) 0).recv 7

/-! ## The scheduler core

Source: class AsynCoro together with class Coro. Coroutine states mirror
AsynCoro._Scheduled .. _AwaitMsg_; generator objects are opaque handles;
the monotonic clock (time.time) is a rational passed to the operations
that read it. A Coro record carries exactly the fields of Coro.__slots__
that the scheduler core reads or writes (name, daemon flag, monitor link
and completion event are dropped: no modelled branch reads them).
coro._msgs entries are the (state, update) pairs appended by _resume.
The scheduler state carries _coros (an association list keyed by id),
_scheduled and _suspended (sets of ids), _timeouts (the timer heap, kept
as a list sorted by deadline), _cur_coro, and the run-loop local variable
retval, which in the source persists across loop iterations and so is
scheduler state. -/
abbrev Time := ℚ

inductive CState where
  | Scheduled
  | Running
  | Suspended
  | AwaitIo
  | AwaitMsg
  deriving DecidableEq, Repr

/-- Exceptions that sit in coro._exceptions: GeneratorExit entries pushed
by _terminate_coro, HotSwapException entries carrying a replacement
generator, and everything else (identified by an integer code). -/
inductive Exc where
  | genExit
  | hotSwap (g : Gen)
  | other (e : Int)
  deriving DecidableEq, Repr

structure Coro where
  gen : Gen
  state : CState
  value : PyVal
  exceptions : List Exc
  callers : List (Gen × PyVal)
  timeout : Option Time
  msgs : List (CState × PyVal)
  new_generator : Option Gen
  hot_swappable : Bool
  deriving DecidableEq, Repr

/-- A fresh coroutine as built by Coro.__init__ before AsynCoro._add. -/
def Coro.fresh (g : Gen) : Coro :=
  ⟨g, .Scheduled, .none, [], [], Option.none, [], Option.none, false⟩

structure TimerEntry where
  deadline : Time
  cid : Cid
  alarm : PyVal
  deriving DecidableEq, Repr

structure Sched where
  coros : List (Cid × Coro)
  scheduled : Finset Cid
  suspended : Finset Cid
  timeouts : List TimerEntry
  cur : Option Cid
  retval : PyVal
  deriving DecidableEq

def Sched.init : Sched :=
  ⟨[], ∅, ∅, [], Option.none, PyVal.none⟩

/-- Lookup in the coroutine table (self._coros.get(cid, None)). -/
def mget (m : List (Cid × Coro)) (k : Cid) : Option Coro :=
  match m with
  | [] => Option.none
  | (k1, c) :: t => if k1 = k then some c else mget t k

/-- Write through the coroutine table (self._coros[cid] = coro). -/
def mput (m : List (Cid × Coro)) (k : Cid) (c : Coro) : List (Cid × Coro) :=
  match m with
  | [] => [(k, c)]
  | (k1, c1) :: t => if k1 = k then (k, c) :: t else (k1, c1) :: mput t k c

/-- Remove from the coroutine table (self._coros.pop(cid, None)). -/
def mdel (m : List (Cid × Coro)) (k : Cid) : List (Cid × Coro) :=
  match m with
  | [] => []
  | (k1, c1) :: t => if k1 = k then t else (k1, c1) :: mdel t k

/-- heappush on the timer heap, modelled as sorted insertion by deadline. -/
def tinsert (e : TimerEntry) : List TimerEntry → List TimerEntry
  | [] => [e]
  | x :: t => if e.deadline < x.deadline then e :: x :: t else x :: tinsert e t

/-- The three waiting states of _suspend's assert. -/
def waiting : CState → Bool
  | .Suspended => true
  | .AwaitIo => true
  | .AwaitMsg => true
  | _ => false

/-- The invalid-timeout guard at the top of _suspend (a negative timeout
is rejected before anything else happens). -/
def badTimeout : Option Time → Bool
  | Option.none => false
  | some t => decide (t < 0)

/-- The head-of-mailbox branch of _suspend: when suspending into
AwaitMsg with a non-empty mailbox whose head entry carries the matching
state tag, pop and return it. -/
def msgPop (state : CState) (msgs : List (CState × PyVal)) :
    Option (PyVal × List (CState × PyVal)) :=
  if state = CState.AwaitMsg then
    match msgs with
    | [] => Option.none
    | (tag, update) :: rest =>
      if tag = state then some (update, rest) else Option.none
  else Option.none

/-- Model of AsynCoro._add: register the coroutine, mark it Scheduled
and put it into the ready set. -/
def Sched._add (s : Sched) (cid : Cid) (g : Gen) : Sched :=
  { s with coros := mput s.coros cid (Coro.fresh g),
           scheduled := insert cid s.scheduled }

/-- Model of AsynCoro._suspend: reject invalid timeouts and non-Running
coroutines with -1; a receive with a queued matching message pops and
returns it without suspending; timeout 0 returns the alarm value without
suspending; otherwise move the coroutine from the ready to the suspended
set in the requested waiting state, pushing a timer entry for a positive
timeout. Returns (call result, new state). -/
def Sched._suspend (s : Sched) (now : Time) (cid : Cid) (timeout : Option Time)
    (alarm_value : PyVal) (state : CState) : PyVal × Sched :=
  if badTimeout timeout then (.num (-1), s)
  else if waiting state = false then (.num (-1), s)
  else
    match mget s.coros cid with
    | Option.none => (.num (-1), s)
    | some coro =>
      if coro.state ≠ .Running then (.num (-1), s)
      else
        match msgPop state coro.msgs with
        | some pr =>
          let c1 := { coro with msgs := pr.2 }
          (pr.1, { s with coros := mput s.coros cid c1 })
        | Option.none =>
          match timeout with
          | Option.none =>
            let c1 := { coro with timeout := Option.none, state := state }
            (.num 0, { s with coros := mput s.coros cid c1,
                              scheduled := s.scheduled.erase cid,
                              suspended := insert cid s.suspended })
          | some t =>
            if t = 0 then (alarm_value, s)
            else
              let c1 := { coro with timeout := some (now + t), state := state }
              (.num 0, { s with coros := mput s.coros cid c1,
                                scheduled := s.scheduled.erase cid,
                                suspended := insert cid s.suspended,
                                timeouts := tinsert ⟨now + t, cid, alarm_value⟩ s.timeouts })

/-- Model of AsynCoro._resume: a message sent to a coroutine not in
AwaitMsg is appended to its mailbox; a resume matching the coroutine's
waiting state moves it back to the ready set carrying the update as its
value; any other resume is logged and ignored. Returns (result, state). -/
def Sched._resume (s : Sched) (cid : Cid) (update : PyVal) (state : CState) :
    PyVal × Sched :=
  match mget s.coros cid with
  | Option.none => (.num (-1), s)
  | some coro =>
    if state = CState.AwaitMsg ∧ coro.state ≠ state then
      let c1 := { coro with msgs := coro.msgs ++ [(state, update)] }
      (.num 0, { s with coros := mput s.coros cid c1 })
    else if coro.state = state then
      let c1 := { coro with timeout := Option.none, value := update,
                            state := CState.Scheduled }
      (.num 0, { s with coros := mput s.coros cid c1,
                        suspended := s.suspended.erase cid,
                        scheduled := insert cid s.scheduled })
    else (.num 0, s)

/-- Model of AsynCoro._throw: only a Scheduled or waiting coroutine may
receive a thrown exception; it is appended to the exception queue and a
waiting coroutine moves to the ready set. -/
def Sched._throw (s : Sched) (cid : Cid) (e : Exc) : PyVal × Sched :=
  match mget s.coros cid with
  | Option.none => (.num (-1), s)
  | some coro =>
    if ¬(coro.state = CState.Scheduled ∨ waiting coro.state = true) then
      (.num (-1), s)
    else if waiting coro.state then
      let c1 := { coro with timeout := Option.none,
                            exceptions := coro.exceptions ++ [e],
                            state := CState.Scheduled }
      (.num 0, { s with coros := mput s.coros cid c1,
                        suspended := s.suspended.erase cid,
                        scheduled := insert cid s.scheduled })
    else
      let c1 := { coro with timeout := Option.none,
                            exceptions := coro.exceptions ++ [e] }
      (.num 0, { s with coros := mput s.coros cid c1 })

/-- Model of AsynCoro._terminate_coro: append a GeneratorExit to the
exception queue and mark the coroutine Scheduled, moving a waiting
coroutine to the ready set (a Running target is only logged). -/
def Sched._terminate_coro (s : Sched) (cid : Cid) : PyVal × Sched :=
  match mget s.coros cid with
  | Option.none => (.num (-1), s)
  | some coro =>
    let c1 := { coro with exceptions := coro.exceptions ++ [.genExit],
                          timeout := Option.none, state := CState.Scheduled }
    if waiting coro.state then
      (.num 0, { s with coros := mput s.coros cid c1,
                        suspended := s.suspended.erase cid,
                        scheduled := insert cid s.scheduled })
    else
      (.num 0, { s with coros := mput s.coros cid c1 })

/-- Model of AsynCoro._swap_generator: a coroutine with caller frames,
or not Scheduled or Suspended, or not hot-swappable, has the request
postponed into new_generator (result 1); otherwise a HotSwapException
carrying the generator is appended and a Suspended coroutine moves to
the ready set (result 0). -/
def Sched._swap_generator (s : Sched) (cid : Cid) (g : Gen) : PyVal × Sched :=
  match mget s.coros cid with
  | Option.none => (.num (-1), s)
  | some coro =>
    if coro.callers ≠ [] ∨ ¬(coro.state = CState.Scheduled ∨ coro.state = CState.Suspended) ∨
        coro.hot_swappable = false then
      let c1 := { coro with new_generator := some g }
      (.num 1, { s with coros := mput s.coros cid c1 })
    else if coro.state = CState.Suspended then
      let c1 := { coro with timeout := Option.none,
                            exceptions := coro.exceptions ++ [.hotSwap g],
                            state := CState.Scheduled }
      (.num 0, { s with coros := mput s.coros cid c1,
                        suspended := s.suspended.erase cid,
                        scheduled := insert cid s.scheduled })
    else
      let c1 := { coro with timeout := Option.none,
                            exceptions := coro.exceptions ++ [.hotSwap g] }
      (.num 0, { s with coros := mput s.coros cid c1 })

/-- The timer-expiry loop of _schedule: pop heap entries whose deadline
is within the slack of now; an entry whose coroutine is gone, whose
recorded deadline differs (stale entry) or whose state is not a waiting
state is discarded; otherwise the coroutine moves to the ready set with
the alarm value. Stops at the first entry beyond the slack. -/
def expireGo (now : Time) : List TimerEntry → Sched → Sched
  | [], s => { s with timeouts := [] }
  | e :: rest, s =>
    if e.deadline ≤ now then
      match mget s.coros e.cid with
      | Option.none => expireGo now rest s
      | some coro =>
        if coro.timeout ≠ some e.deadline then expireGo now rest s
        else if waiting coro.state = false then expireGo now rest s
        else
          let c1 := { coro with timeout := Option.none, state := CState.Scheduled,
                                value := e.alarm }
          expireGo now rest { s with coros := mput s.coros e.cid c1,
                                     scheduled := insert e.cid s.scheduled,
                                     suspended := s.suspended.erase e.cid }
    else { s with timeouts := e :: rest }

/-- Timer expiry at monotonic time now (the source adds a 1 ms slack to
now before comparing deadlines). -/
def Sched.expire (s : Sched) (now : Time) : Sched :=
  expireGo (now + 1 / 1000) s.timeouts s

/-! ### One iteration of the _schedule run loop

A generator body is opaque; what one resumption (generator.send or
generator.throw) observably does is a body action: optionally call
Coro.hot_swappable, then either yield a plain value, yield a
sub-generator, raise StopIteration (optionally carrying a value), raise
HotSwapException carrying a generator, raise some other exception, or
call _suspend on itself and yield the returned value (the idiom of
yield coro.suspend and yield coro.receive). -/
inductive BodyEnd where
  | yieldVal (v : PyVal)
  | yieldGen (g : Gen)
  | raiseStop (v : Option PyVal)
  | raiseHot (g : Gen)
  | raiseOther (e : Int)
  | suspendYield (kind : CState) (timeout : Option Time) (alarm_value : PyVal)
  deriving DecidableEq, Repr

structure BodyAct where
  setSwap : Option Bool
  ending : BodyEnd
  deriving DecidableEq, Repr

/-- The body called Coro.hot_swappable during its step. -/
def setSwapApply (s : Sched) (cid : Cid) (b : Option Bool) : Sched :=
  match b, mget s.coros cid with
  | some fl, some c =>
    let c1 := { c with hot_swappable := fl }
    { s with coros := mput s.coros cid c1 }
  | _, _ => s

/-- Tail of the else branch of the run loop try block: once the pending
new_generator check fails, a yielded generator is pushed onto the caller
frames and installed as the current body. -/
def elseInstall (s : Sched) (cid : Cid) (coro1 : Coro) (retval : PyVal) : Sched :=
  match retval with
  | .gen g2 =>
    let c2 := { coro1 with callers := coro1.callers ++ [(coro1.gen, coro1.value)],
                           gen := g2, value := PyVal.none }
    { s with coros := mput s.coros cid c2, cur := Option.none, retval := retval }
  | _ =>
    { s with coros := mput s.coros cid coro1, cur := Option.none, retval := retval }

/-- The else branch of the run loop try block (the body yielded retval):
a still-Running coroutine goes back to Scheduled and records retval as
its value; then a pending new_generator of an eligible coroutine (no
caller frames, hot-swappable, Scheduled or Suspended) is turned into a
queued HotSwapException; otherwise a yielded generator is installed. -/
def elsePath (s : Sched) (cid : Cid) (retval : PyVal) : Sched :=
  match mget s.coros cid with
  | Option.none => { s with cur := Option.none, retval := retval }
  | some coro =>
    let coro1 := if coro.state = CState.Running
      then { coro with state := CState.Scheduled, value := retval } else coro
    match coro1.new_generator with
    | some g =>
      if coro1.callers = [] ∧ coro1.hot_swappable = true ∧
          (coro1.state = CState.Scheduled ∨ coro1.state = CState.Suspended) then
        let c2 := { coro1 with exceptions := coro1.exceptions ++ [.hotSwap g],
                               new_generator := Option.none }
        { s with coros := mput s.coros cid c2, cur := Option.none, retval := retval }
      else elseInstall s cid coro1 retval
    | Option.none => elseInstall s cid coro1 retval

/-- Common tail of the except branch for StopIteration and ordinary
exceptions: with caller frames, pop the top frame, restoring the saved
value if an exception remains queued; without frames the coroutine is
terminated and removed from the tables and from the ready set. -/
def afterExcPath (s : Sched) (cid : Cid) : Sched :=
  match mget s.coros cid with
  | Option.none => s
  | some coro =>
    match coro.callers.getLast? with
    | some caller =>
      let coro1 := { coro with gen := caller.1, callers := coro.callers.dropLast }
      let coro2 :=
        if coro1.exceptions ≠ [] then
          { coro1 with value := caller.2, state := CState.Scheduled }
        else if coro1.state = CState.Running then
          { coro1 with state := CState.Scheduled }
        else coro1
      { s with coros := mput s.coros cid coro2 }
    | Option.none =>
      { s with coros := mdel s.coros cid, scheduled := s.scheduled.erase cid }

/-- Dispatch on what the resumed body did (the try body together with
the except and else branches of _schedule). -/
def runBodyEnd (s : Sched) (now : Time) (cid : Cid) (ending : BodyEnd) : Sched :=
  match ending with
  | .yieldVal v => elsePath s cid v
  | .yieldGen g => elsePath s cid (.gen g)
  | .suspendYield kind t a =>
    let r := Sched._suspend s now cid t a kind
    elsePath r.2 cid r.1
  | .raiseStop v =>
    let s1 :=
      match mget s.coros cid with
      | some c =>
        let c1 := { c with value := (match v with | some p => p | Option.none => c.value),
                           exceptions := [] }
        { s with coros := mput s.coros cid c1, cur := Option.none }
      | Option.none => { s with cur := Option.none }
    afterExcPath s1 cid
  | .raiseOther e =>
    let s1 :=
      match mget s.coros cid with
      | some c =>
        let c1 := { c with exceptions := c.exceptions ++ [.other e] }
        { s with coros := mput s.coros cid c1, cur := Option.none }
      | Option.none => { s with cur := Option.none }
    afterExcPath s1 cid
  | .raiseHot g =>
    match mget s.coros cid with
    | some c =>
      if c.hot_swappable = true ∧ c.callers = [] then
        let c1 := { c with gen := g, exceptions := [], value := PyVal.none,
                           state := CState.Scheduled }
        { s with coros := mput s.coros cid c1, cur := Option.none }
      else { s with cur := Option.none }
    | Option.none => { s with cur := Option.none }

def runBody (s0 : Sched) (now : Time) (cid : Cid) (act : BodyAct) : Sched :=
  runBodyEnd (setSwapApply s0 cid act.setSwap) now cid act.ending

/-- One iteration of the per-coroutine body of the _schedule run loop: a
missing or non-Scheduled coroutine is skipped; a queued GeneratorExit
closes the generator (the else branch then runs with the stale retval of
the previous iteration); any other queued exception is popped and thrown
into the body, otherwise the body is resumed with coro._value; act is
what the body then did. -/
def Sched.step (s0 : Sched) (now : Time) (cid : Cid) (act : BodyAct) : Sched :=
  match mget s0.coros cid with
  | Option.none => s0
  | some coro0 =>
    if coro0.state ≠ CState.Scheduled then s0
    else
      match coro0.exceptions with
      | .genExit :: restE =>
        let c1 := { coro0 with state := CState.Running, exceptions := restE }
        elsePath { s0 with coros := mput s0.coros cid c1, cur := some cid }
          cid s0.retval
      | _ :: restE =>
        let c1 := { coro0 with state := CState.Running, exceptions := restE }
        runBody { s0 with coros := mput s0.coros cid c1, cur := some cid }
          now cid act
      | [] =>
        let c1 := { coro0 with state := CState.Running }
        runBody { s0 with coros := mput s0.coros cid c1, cur := some cid }
          now cid act

/-! ### Scheduler operations and reachability -/
inductive Op where
  | add (cid : Cid) (g : Gen)
  | send (cid : Cid) (m : PyVal)
  | resumeOp (cid : Cid) (v : PyVal)
  | proceedOp (cid : Cid) (v : PyVal)
  | throwOp (cid : Cid) (e : Exc)
  | terminateOp (cid : Cid)
  | swapOp (cid : Cid) (g : Gen)
  | expireOp (now : Time)
  | stepOp (now : Time) (cid : Cid) (act : BodyAct)
  deriving DecidableEq, Repr

/-- Apply one scheduler operation: Coro.send / resume / _proceed_ are
_resume at the matching waiting state, Coro.throw is _throw, terminate
is _terminate_coro, hot_swap is _swap_generator, and one scheduling step
covers timer expiry and one body resumption. -/
def applyOp (s : Sched) : Op → Sched
  | .add cid g => Sched._add s cid g
  | .send cid m => (Sched._resume s cid m .AwaitMsg).2
  | .resumeOp cid v => (Sched._resume s cid v .Suspended).2
  | .proceedOp cid v => (Sched._resume s cid v .AwaitIo).2
  | .throwOp cid e => (Sched._throw s cid e).2
  | .terminateOp cid => (Sched._terminate_coro s cid).2
  | .swapOp cid g => (Sched._swap_generator s cid g).2
  | .expireOp now => Sched.expire s now
  | .stepOp now cid act => Sched.step s now cid act

/-- Well-behaved body actions for one step of cid: the body does not
suspend while further thrown exceptions remain queued or while a
postponed hot-swap is pending, and does not raise a HotSwapException it
is ineligible for while further exceptions remain queued. Real bodies
only suspend via the yield idiom and only see HotSwapException through
an eligible _swap_generator injection, so these hold of them. -/
def WellB (s : Sched) (cid : Cid) (act : BodyAct) : Prop :=
  ∀ c, mget s.coros cid = some c →
    (∀ kind t a, act.ending = .suspendYield kind t a →
      c.exceptions.tail = [] ∧ c.new_generator = Option.none) ∧
    (∀ g, act.ending = .raiseHot g →
      ¬(act.setSwap.getD c.hot_swappable = true ∧ c.callers = []) →
      c.exceptions.tail = [])

/-- Scheduler states reachable from the empty scheduler by operations
with fresh ids on add and well-behaved bodies on steps. -/
inductive ReachW : Sched → Prop where
  | init : ReachW Sched.init
  | add {s : Sched} (cid : Cid) (g : Gen) : ReachW s →
      mget s.coros cid = Option.none → cid ∉ s.scheduled → cid ∉ s.suspended →
      ReachW (applyOp s (.add cid g))
  | send {s : Sched} (cid : Cid) (m : PyVal) : ReachW s →
      ReachW (applyOp s (.send cid m))
  | resume {s : Sched} (cid : Cid) (v : PyVal) : ReachW s →
      ReachW (applyOp s (.resumeOp cid v))
  | proceed {s : Sched} (cid : Cid) (v : PyVal) : ReachW s →
      ReachW (applyOp s (.proceedOp cid v))
  | throwR {s : Sched} (cid : Cid) (e : Exc) : ReachW s →
      ReachW (applyOp s (.throwOp cid e))
  | terminate {s : Sched} (cid : Cid) : ReachW s →
      ReachW (applyOp s (.terminateOp cid))
  | swap {s : Sched} (cid : Cid) (g : Gen) : ReachW s →
      ReachW (applyOp s (.swapOp cid g))
  | expire {s : Sched} (now : Time) : ReachW s →
      ReachW (applyOp s (.expireOp now))
  | step {s : Sched} (now : Time) (cid : Cid) (act : BodyAct) : ReachW s →
      WellB s cid act → ReachW (applyOp s (.stepOp now cid act))

/-- Keys of the coroutine table are distinct (ids are unique). -/
def InvKeys (s : Sched) : Prop := (s.coros.map Prod.fst).Nodup

/-- Set coherence: a live Scheduled or Running coroutine is in the ready
set and not in the suspended set; a live waiting coroutine is in the
suspended set and not in the ready set. -/
def InvSets (s : Sched) : Prop :=
  ∀ p ∈ s.coros,
    ((p.2.state = CState.Scheduled ∨ p.2.state = CState.Running) →
      p.1 ∈ s.scheduled ∧ p.1 ∉ s.suspended) ∧
    (waiting p.2.state = true → p.1 ∈ s.suspended ∧ p.1 ∉ s.scheduled)

/-- Claimed invariant: a live coroutine with a non-empty exception queue
is in state Scheduled and a member of the ready set. -/
def InvMain (s : Sched) : Prop :=
  ∀ p ∈ s.coros, p.2.exceptions ≠ [] →
    p.2.state = CState.Scheduled ∧ p.1 ∈ s.scheduled

def Inv (s : Sched) : Prop := InvKeys s ∧ InvSets s ∧ InvMain s

instance (s : Sched) : Decidable (InvMain s) :=
  inferInstanceAs (Decidable (∀ p ∈ s.coros, p.2.exceptions ≠ [] →
    p.2.state = CState.Scheduled ∧ p.1 ∈ s.scheduled))

/-! ### Invariant preservation helpers

Mid-step states, in which the coroutine being stepped is Running while
every other live coroutine satisfies the invariant, are described by
MidInv; the finisher lemmas discharge Inv for the ways a step ends. -/
def MidInv (s : Sched) (cid : Cid) : Prop :=
  InvKeys s ∧
  (∀ p ∈ s.coros, p.1 ≠ cid →
    (((p.2.state = CState.Scheduled ∨ p.2.state = CState.Running) →
      p.1 ∈ s.scheduled ∧ p.1 ∉ s.suspended) ∧
     (waiting p.2.state = true → p.1 ∈ s.suspended ∧ p.1 ∉ s.scheduled) ∧
     (p.2.exceptions ≠ [] →
       p.2.state = CState.Scheduled ∧ p.1 ∈ s.scheduled))) ∧
  (∀ c, mget s.coros cid = some c →
    c.state = CState.Running ∧ cid ∈ s.scheduled ∧ cid ∉ s.suspended)

/-! ### Mailbox FIFO (C1, C4, C10) -/
/-- Iterated Coro.send: each send is _resume at AwaitMsg. -/
def sendList (s : Sched) (cid : Cid) (ms : List PyVal) : Sched :=
  ms.foldl (fun s1 m => (Sched._resume s1 cid m CState.AwaitMsg).2) s

/-- Iterated Coro.receive with no timeout, collecting the results. -/
def recvList (now : Time) (cid : Cid) : Nat → Sched → List PyVal × Sched
  | 0, s => ([], s)
  | n + 1, s =>
    let r := Sched._suspend s now cid Option.none PyVal.none CState.AwaitMsg
    let rest := recvList now cid n r.2
    (r.1 :: rest.1, rest.2)

/-- A running coroutine with a Running state and a single-entry table,
used to instantiate the mailbox theorems. -/
def fixtureRun : Sched :=
  { Sched.init with
    coros := [(1, { Coro.fresh 5 with state := CState.Running })],
    scheduled := {1} }

/-- A coroutine blocked in receive. -/
def fixtureWait : Sched :=
  { Sched.init with
    coros := [(2, { Coro.fresh 6 with state := CState.AwaitMsg })],
    suspended := {2} }

/-- A running coroutine with one queued message. -/
def fixtureMsg : Sched :=
  { Sched.init with
    coros := [(1, { Coro.fresh 5 with state := CState.Running, msgs := [(CState.AwaitMsg, PyVal.num 5)] })],
    scheduled := {1} }

/-- A hot-swappable coroutine with a queued HotSwapException. -/
def fixtureHot : Sched :=
  { Sched.init with
    coros := [(1, { Coro.fresh 5 with exceptions := [Exc.hotSwap 9], msgs := [(CState.AwaitMsg, PyVal.num 4)], hot_swappable := true })],
    scheduled := {1} }

/-- The same coroutine without the hot-swappable flag. -/
def fixtureHotIn : Sched :=
  { Sched.init with
    coros := [(1, { Coro.fresh 5 with exceptions := [Exc.hotSwap 9], msgs := [(CState.AwaitMsg, PyVal.num 4)] })],
    scheduled := {1} }

/-- A suspended coroutine with a 10-second timer, deadline 10. -/
def fixtureTimer : Sched :=
  { Sched.init with
    coros := [(1, { Coro.fresh 5 with state := CState.Suspended, timeout := some 10 })],
    suspended := {1},
    timeouts := [⟨10, 1, PyVal.num 77⟩] }

theorem packU32_length (n : Nat) : (packU32 n).length = 4 := rfl

theorem unpackU32_packU32 (n : Nat) (h : n < 2 ^ 32) :
    unpackU32 (packU32 n) = n := by
  simp only [packU32, unpackU32]
  omega

/-- Claim C2: for every byte string x of length up to 2^32 - 1, reading a
stream that starts with send_msg x returns exactly x and leaves the rest
of the stream untouched: recv_msg is a left inverse of send_msg over a
lossless stream. -/
theorem sync_recv_msg_sync_send_msg (data rest : List Nat)
    (h : data.length ≤ 2 ^ 32 - 1) :
    sync_recv_msg (sync_send_msg data ++ rest) = (data, rest) := by
  have hlt : data.length < 2 ^ 32 := by omega
  have hlen4 : (packU32 data.length).length = 4 := rfl
  simp only [sync_recv_msg, sync_send_msg, sync_recvall, List.append_assoc]
  rw [List.length_append, List.length_append, hlen4]
  have h4 : 4 ≤ 4 + (data.length + rest.length) := by omega
  rw [if_pos h4]
  have htake : ((packU32 data.length ++ (data ++ rest)).take 4) = packU32 data.length := by
    rw [show 4 = (packU32 data.length).length from rfl, List.take_left]
  have hdrop : ((packU32 data.length ++ (data ++ rest)).drop 4) = data ++ rest := by
    rw [show 4 = (packU32 data.length).length from rfl, List.drop_left]
  simp only [htake, hdrop, hlen4, unpackU32_packU32 data.length hlt]
  rw [if_neg (by simp)]
  have hd : data.length ≤ (data ++ rest).length := by
    rw [List.length_append]; omega
  rw [if_pos hd, List.take_left, List.drop_left]
  simp

/-- Witness for C2 at a concrete payload and stream remainder. -/
theorem sync_recv_msg_sync_send_msg_witness :
    sync_recv_msg (sync_send_msg [7, 8, 9] ++ [1, 2]) = ([7, 8, 9], [1, 2]) :=
  sync_recv_msg_sync_send_msg [7, 8, 9] [1, 2] (by decide)

/-- Counterexample to claim C9 as stated: releasing an unowned lock -
the plainest release by a non-owner, a release without a prior acquire -
raises AttributeError (the RuntimeError message formatting reads the
owner's name attribute on None before the RuntimeError exists), not
RuntimeError. -/
theorem rlock_release_unowned_counterexample :
    (RLock.release ⟨none, 0, []⟩ 5).err = RelErr.attr ∧
    RelErr.attr ≠ RelErr.runtime := by
  exact ⟨rfl, by decide⟩

/-- Claim C9 as amended: release of an unowned lock raises
AttributeError (raised while the RuntimeError message is formatted),
release of a lock owned by another coroutine raises RuntimeError -
either error is raised before any field is touched, so the lock (owner,
depth, wait queue) is unchanged and nobody is woken; release by the
owner decrements the depth; only when the depth reaches zero is the head
of the wait queue woken, and its pending acquire then makes it the owner. -/
theorem rlock_release_spec (l : RLockSt) (cur : Cid) :
    (l.owner = Option.none → RLock.release l cur = ⟨RelErr.attr, l, none⟩) ∧
    (∀ o, l.owner = some o → o ≠ cur →
      RLock.release l cur = ⟨RelErr.runtime, l, none⟩) ∧
    (l.owner = some cur →
      (RLock.release l cur).err = RelErr.ok ∧
      (RLock.release l cur).lock.depth = l.depth - 1 ∧
      (l.depth - 1 ≠ 0 →
        (RLock.release l cur).lock = { l with depth := l.depth - 1 } ∧
        (RLock.release l cur).woken = none) ∧
      (l.depth - 1 = 0 →
        (RLock.release l cur).lock.owner = none ∧
        (RLock.release l cur).lock.waitlist = l.waitlist.tail ∧
        (RLock.release l cur).woken = l.waitlist.head? ∧
        (∀ w, (RLock.release l cur).woken = some w →
          RLock.acquire (RLock.release l cur).lock w true =
            (some true, ⟨some w, 1, l.waitlist.tail⟩)))) := by
  refine ⟨?_, ?_, ?_⟩
  · intro h
    simp [RLock.release, h]
  · intro o ho hne
    simp [RLock.release, ho, hne]
  · intro h
    refine ⟨?_, ?_, ?_, ?_⟩
    · simp only [RLock.release, h]
      rw [if_pos trivial]
      split
      · split <;> rfl
      · rfl
    · simp only [RLock.release, h]
      rw [if_pos trivial]
      split
      · split <;> rfl
      · rfl
    · intro hd
      simp only [RLock.release, h]
      rw [if_pos trivial, if_neg hd]
      exact ⟨rfl, rfl⟩
    · intro hd
      simp only [RLock.release, h]
      rw [if_pos trivial, if_pos hd]
      cases hw : l.waitlist with
      | nil => simp
      | cons w rest =>
        refine ⟨rfl, rfl, rfl, ?_⟩
        intro w' hw'
        simp only [Option.some.injEq] at hw'
        subst hw'
        simp [RLock.acquire, hd]

/-- Witness for C9 at concrete locks: release of an unowned lock by 5 is
the AttributeError; with owner 1 at depth 1 and waiter 2, release by 3
is the RuntimeError and release by 1 hands off to 2. -/
theorem rlock_release_spec_witness :
    (RLock.release ⟨none, 0, []⟩ 5 = ⟨RelErr.attr, ⟨none, 0, []⟩, none⟩) ∧
    (RLock.release ⟨some 1, 1, [2]⟩ 3 = ⟨RelErr.runtime, ⟨some 1, 1, [2]⟩, none⟩) ∧
    ((RLock.release ⟨some 1, 1, [2]⟩ 1).err = RelErr.ok ∧
      (RLock.release ⟨some 1, 1, [2]⟩ 1).woken = some 2) := by
  refine ⟨(rlock_release_spec ⟨none, 0, []⟩ 5).1 rfl,
    (rlock_release_spec ⟨some 1, 1, [2]⟩ 3).2.1 1 rfl (by decide), ?_, ?_⟩
  · exact ((rlock_release_spec ⟨some 1, 1, [2]⟩ 1).2.2 rfl).1
  · have h := (((rlock_release_spec ⟨some 1, 1, [2]⟩ 1).2.2 rfl).2.2.2 (by decide)).2.2.1
    simpa using h

theorem foldl_fail_count (subSend : Sub → Int) (subs : List Sub) (r : Int) :
    subs.foldl (fun r sub => if subSend sub ≠ 0 then r - 1 else r) r =
      r - (subs.filter (fun sub => subSend sub ≠ 0)).length := by
  induction subs generalizing r with
  | nil => simp
  | cons a t ih =>
    rw [List.foldl_cons]
    by_cases h : subSend a ≠ 0
    · rw [if_pos h, ih, List.filter_cons_of_pos (by simpa using h),
        List.length_cons]
      push_cast
      ring
    · rw [if_neg h, ih, List.filter_cons_of_neg (by simpa using h)]

/-- Claim C8: AsyncChannel.send first applies the optional transform; a
none result drops the message and returns 0 with no deliveries;
otherwise the message is wrapped as (channel-name, payload), delivered
to every current subscriber through that subscriber's send, and the
return value is the count of failed deliveries negated, 0 when all
succeed. -/
theorem async_channel_send_spec (ch : AsyncChannel) (message : PyVal)
    (subSend : Sub → Int) :
    (applyTransform ch.transform ch.name message = Option.none →
      AsyncChannel.send ch message subSend = (0, [])) ∧
    (∀ m, applyTransform ch.transform ch.name message = some m →
      (AsyncChannel.send ch message subSend).2 =
        ch.subscribers.map (fun sub => (sub, (⟨ch.name, m⟩ : ChannelMessage))) ∧
      (AsyncChannel.send ch message subSend).1 =
        -((ch.subscribers.filter (fun sub => subSend sub ≠ 0)).length : Int) ∧
      ((∀ sub ∈ ch.subscribers, subSend sub = 0) →
        (AsyncChannel.send ch message subSend).1 = 0)) := by
  constructor
  · intro h
    simp [AsyncChannel.send, h]
  · intro m hm
    refine ⟨?_, ?_, ?_⟩
    · simp [AsyncChannel.send, hm]
    · simp only [AsyncChannel.send, hm]
      rw [foldl_fail_count]
      simp
    · intro hall
      have hnil : ch.subscribers.filter (fun sub => subSend sub ≠ 0) = [] := by
        rw [List.filter_eq_nil_iff]
        intro sub hsub
        simp [hall sub hsub]
      simp only [AsyncChannel.send, hm]
      rw [foldl_fail_count, hnil]
      simp

/-- Witness for C8: a channel with no transform and subscribers 1, 2
where subscriber 2's send fails. -/
theorem async_channel_send_spec_witness :
    (AsyncChannel.send ⟨5, Option.none, [1, 2], 0, true⟩ (.num 3)
        (fun sub => if sub = 2 then -1 else 0)).2 =
      [(1, ⟨5, .num 3⟩), (2, ⟨5, .num 3⟩)] ∧
    (AsyncChannel.send ⟨5, Option.none, [1, 2], 0, true⟩ (.num 3)
        (fun sub => if sub = 2 then -1 else 0)).1 = -1 := by
  have h := (async_channel_send_spec ⟨5, Option.none, [1, 2], 0, true⟩ (.num 3)
    (fun sub => if sub = 2 then -1 else 0)).2 (.num 3) rfl
  exact ⟨h.1, by rw [h.2.1]; rfl⟩

/-- The gate event of a reachable sync channel state is set only when at
least min_receivers recipients are listed (recipients only leave the
list on a delivery, which also clears the event, so a receive timeout
does not break this). -/
theorem screach_event_le {s : SCState} (h : SCReach s) :
    s.ch.event = true → s.ch.min_receivers ≤ s.ch.recipients.length := by
  induction h with
  | init name transform min_receivers =>
    intro he
    simp only [SCState.init, SyncChannel.init] at he ⊢
    simp only [decide_eq_true_eq] at he
    omega
  | recv c hch ih =>
    intro he
    simp only [SCState.recv, SyncChannel.receive] at he ⊢
    split at he
    · next heq => rw [List.length_append] at heq ⊢; omega
    · have := ih he
      rw [List.length_append]
      omega
  | rtimeout c hch ih =>
    intro he
    simp only [SCState.rtimeout] at he ⊢
    exact ih he
  | send m hch ih =>
    intro he
    simp only [SCState.sendStep] at he ⊢
    split at he
    · exact ih he
    · simp at he
  | deliverFin m hch ih =>
    intro he
    simp only [SCState.deliverFinish] at he ⊢
    split at he
    · exact ih he
    · simp at he

/-- Counterexample to claim C7 as previously stated, in both refuted
parts. First the blocked-receivers gate: with min_receivers 2 and no
transform, coroutine 1 calls receive with a timeout and the timer fires
(1 is resumed with the alarm value but stays on the recipient list),
then coroutine 2 calls receive; deliver passes the gate and returns True
although only one coroutine is blocked in receive, and only 2 is handed
the message (the resume of 1 is logged and ignored). Second the
filtering transform: a transform returning None makes deliver return
True without handing the message to the waiting recipient 7 or emptying
the recipient list. -/
theorem sync_deliver_counterexample :
    scFixture.waiting = [2] ∧
    scFixture.ch.min_receivers = 2 ∧
    scFixture.ch.recipients = [1, 2] ∧
    scFixture.deliver (.num 8) =
      some (⟨⟨3, Option.none, [], 2, false⟩, []⟩, true,
        [(2, (⟨3, .num 8⟩ : ChannelMessage))]) ∧
    scFixtureF.deliver (.num 9) = some (scFixtureF, true, []) ∧
    scFixtureF.ch.recipients = [7] := by
  exact ⟨rfl, rfl, rfl, rfl, rfl, rfl⟩

/-- Claim C7 as amended: on a reachable sync channel state with
min_receivers k, a deliver call proceeds past its gate only when at
least k coroutines are on the recipient list, that is, have called
receive since the last delivery (receive timeouts do not prune the list,
so they need not all still be blocked; a deliver that blocked instead
completes later, when the gate event is set, without rechecking); the
delivering tail returns True; when the transform does not filter the
message it hands the wrapped message to exactly the listed recipients
that are still blocked, empties the recipient list and removes those
recipients from the blocked set, so a subsequent send or deliver finds
no recipients; a filtered message yields True with no deliveries and
everything unchanged. -/
theorem sync_deliver_spec (s : SCState) (m : PyVal) {t : SCState} {r : Bool}
    {out : List (Cid × ChannelMessage)} (hreach : SCReach s)
    (hd : s.deliver m = some (t, r, out)) :
    s.ch.min_receivers ≤ s.ch.recipients.length ∧
    (t, r, out) = s.deliverFinish m ∧
    r = true ∧
    (∀ p, applyTransform s.ch.transform s.ch.name m = some p →
      out = (s.ch.recipients.filter (fun c => decide (c ∈ s.waiting))).map
        (fun c => (c, (⟨s.ch.name, p⟩ : ChannelMessage))) ∧
      t.ch.recipients = [] ∧ t.ch.event = false ∧
      t.waiting = s.waiting.filter (fun c => decide (¬ c ∈ s.ch.recipients))) ∧
    (applyTransform s.ch.transform s.ch.name m = Option.none →
      out = [] ∧ t = s) := by
  simp only [SCState.deliver] at hd
  split at hd
  · next hg =>
    have hgate : s.ch.min_receivers ≤ s.ch.recipients.length := by
      rcases hg with h | h
      · exact h
      · exact screach_event_le hreach h
    cases hap : applyTransform s.ch.transform s.ch.name m with
    | none =>
      simp only [SCState.deliverFinish, hap, Option.some.injEq, Prod.mk.injEq] at hd
      obtain ⟨rfl, rfl, rfl⟩ := hd
      refine ⟨hgate, by simp [SCState.deliverFinish, hap], rfl, ?_, ?_⟩
      · intro p hp
        cases hp
      · intro _
        exact ⟨rfl, rfl⟩
    | some q =>
      simp only [SCState.deliverFinish, hap, Option.some.injEq, Prod.mk.injEq] at hd
      obtain ⟨rfl, rfl, rfl⟩ := hd
      refine ⟨hgate, by simp [SCState.deliverFinish, hap], rfl, ?_, ?_⟩
      · intro p hp
        obtain rfl := Option.some.inj hp
        exact ⟨rfl, rfl, rfl, rfl⟩
      · intro hp
        cases hp
  · exact absurd hd (by simp)

/-- Witness for C7: channel with min_receivers 1 and no transform, one
recipient 3 blocked in receive; deliver hands the wrapped message to 3
and empties the recipient list. -/
theorem sync_deliver_spec_witness :
    1 ≤ ((SCState.init 2 Option.none 1).recv 3).ch.recipients.length ∧
    [(3, (⟨2, .num 8⟩ : ChannelMessage))] =
      (((SCState.init 2 Option.none 1).recv 3).ch.recipients.filter
        (fun c => decide (c ∈ ((SCState.init 2 Option.none 1).recv 3).waiting))).map
        (fun c => (c, (⟨2, .num 8⟩ : ChannelMessage))) := by
  have h := sync_deliver_spec ((SCState.init 2 Option.none 1).recv 3) (.num 8)
    (SCReach.recv 3 (SCReach.init 2 Option.none 1)) rfl
  exact ⟨h.1, ((h.2.2.2.1 (.num 8) rfl).1).symm⟩

/-! ### Association-list lemmas for the coroutine table -/
theorem mget_mput_self (m : List (Cid × Coro)) (k : Cid) (c : Coro) :
    mget (mput m k c) k = some c := by
  induction m with
  | nil => simp [mput, mget]
  | cons p t ih =>
    obtain ⟨k1, c1⟩ := p
    by_cases h : k1 = k
    · simp [mput, mget, h]
    · simp [mput, mget, h, ih]

theorem mget_mput_ne (m : List (Cid × Coro)) {k k' : Cid} (c : Coro)
    (h : k' ≠ k) : mget (mput m k c) k' = mget m k' := by
  have h2 : k ≠ k' := Ne.symm h
  induction m with
  | nil => simp [mput, mget, h2]
  | cons p t ih =>
    obtain ⟨k1, c1⟩ := p
    by_cases h1 : k1 = k
    · subst h1
      simp [mput, mget, h2]
    · simp only [mput, if_neg h1, mget, ih]

theorem mget_mem {m : List (Cid × Coro)} {k : Cid} {c : Coro}
    (h : mget m k = some c) : (k, c) ∈ m := by
  induction m with
  | nil => simp [mget] at h
  | cons p t ih =>
    obtain ⟨k1, c1⟩ := p
    simp only [mget] at h
    split at h
    · next heq =>
      obtain rfl := heq
      simp only [Option.some.injEq] at h
      subst h
      exact List.mem_cons_self _ _
    · exact List.mem_cons_of_mem _ (ih h)

theorem mget_none_forall {m : List (Cid × Coro)} {k : Cid}
    (h : mget m k = Option.none) : ∀ p ∈ m, p.1 ≠ k := by
  induction m with
  | nil => simp
  | cons p t ih =>
    obtain ⟨k1, c1⟩ := p
    simp only [mget] at h
    split at h
    · simp at h
    · next hne =>
      intro q hq
      rcases List.mem_cons.mp hq with rfl | hq
      · exact hne
      · exact ih h q hq

theorem keys_mput_subset {m : List (Cid × Coro)} {k x : Cid} {c : Coro}
    (h : x ∈ (mput m k c).map Prod.fst) : x ∈ m.map Prod.fst ∨ x = k := by
  induction m with
  | nil =>
    simp only [mput, List.map_cons, List.map_nil, List.mem_singleton] at h
    exact Or.inr h
  | cons p t ih =>
    obtain ⟨k1, c1⟩ := p
    by_cases h1 : k1 = k
    · subst h1
      rw [show mput ((k1, c1) :: t) k1 c = (k1, c) :: t from by simp [mput]] at h
      simp only [List.map_cons, List.mem_cons] at h
      rcases h with h | h
      · exact Or.inr h
      · exact Or.inl (by simp [List.mem_cons, h])
    · rw [show mput ((k1, c1) :: t) k c = (k1, c1) :: mput t k c from by
        simp [mput, h1]] at h
      simp only [List.map_cons, List.mem_cons] at h
      rcases h with h | h
      · exact Or.inl (by simp [h])
      · rcases ih h with h | h
        · exact Or.inl (by simp [List.mem_cons, h])
        · exact Or.inr h

theorem mput_nodup {m : List (Cid × Coro)} {k : Cid} {c : Coro}
    (h : (m.map Prod.fst).Nodup) : ((mput m k c).map Prod.fst).Nodup := by
  induction m with
  | nil => simp [mput]
  | cons p t ih =>
    obtain ⟨k1, c1⟩ := p
    simp only [List.map_cons, List.nodup_cons] at h
    by_cases h1 : k1 = k
    · subst h1
      rw [show mput ((k1, c1) :: t) k1 c = (k1, c) :: t from by simp [mput]]
      simp only [List.map_cons, List.nodup_cons]
      exact h
    · rw [show mput ((k1, c1) :: t) k c = (k1, c1) :: mput t k c from by
        simp [mput, h1]]
      simp only [List.map_cons, List.nodup_cons]
      refine ⟨fun hx => ?_, ih h.2⟩
      rcases keys_mput_subset hx with hx | hx
      · exact h.1 hx
      · exact h1 hx

theorem mem_mput {m : List (Cid × Coro)} {k : Cid} {c : Coro}
    (hnd : (m.map Prod.fst).Nodup) {p : Cid × Coro} (h : p ∈ mput m k c) :
    p = (k, c) ∨ (p ∈ m ∧ p.1 ≠ k) := by
  induction m with
  | nil =>
    simp only [mput, List.mem_singleton] at h
    exact Or.inl h
  | cons q t ih =>
    obtain ⟨k1, c1⟩ := q
    simp only [List.map_cons, List.nodup_cons] at hnd
    by_cases h1 : k1 = k
    · subst h1
      rw [show mput ((k1, c1) :: t) k1 c = (k1, c) :: t from by simp [mput]] at h
      rcases List.mem_cons.mp h with h | h
      · exact Or.inl h
      · refine Or.inr ⟨List.mem_cons_of_mem _ h, fun he => ?_⟩
        exact hnd.1 (he ▸ List.mem_map_of_mem Prod.fst h)
    · rw [show mput ((k1, c1) :: t) k c = (k1, c1) :: mput t k c from by
        simp [mput, h1]] at h
      rcases List.mem_cons.mp h with h | h
      · subst h
        exact Or.inr ⟨List.mem_cons_self _ _, h1⟩
      · rcases ih hnd.2 h with h | ⟨hm, hne⟩
        · exact Or.inl h
        · exact Or.inr ⟨List.mem_cons_of_mem _ hm, hne⟩

theorem mem_mdel {m : List (Cid × Coro)} {k : Cid} {p : Cid × Coro}
    (h : p ∈ mdel m k) : p ∈ m := by
  induction m with
  | nil => simp [mdel] at h
  | cons q t ih =>
    obtain ⟨k1, c1⟩ := q
    simp only [mdel] at h
    split at h
    · exact List.mem_cons_of_mem _ h
    · rcases List.mem_cons.mp h with rfl | h
      · exact List.mem_cons_self _ _
      · exact List.mem_cons_of_mem _ (ih h)

theorem mdel_sublist (m : List (Cid × Coro)) (k : Cid) :
    (mdel m k).Sublist m := by
  induction m with
  | nil => simp [mdel]
  | cons q t ih =>
    obtain ⟨k1, c1⟩ := q
    simp only [mdel]
    split
    · exact List.sublist_cons_self _ _
    · exact ih.cons₂ _

theorem mdel_nodup {m : List (Cid × Coro)} {k : Cid}
    (h : (m.map Prod.fst).Nodup) : ((mdel m k).map Prod.fst).Nodup :=
  ((mdel_sublist m k).map Prod.fst).nodup h

theorem mem_mdel_ne {m : List (Cid × Coro)} {k : Cid}
    (hnd : (m.map Prod.fst).Nodup) {p : Cid × Coro} (h : p ∈ mdel m k)
    (hk : mget m k ≠ Option.none) : p.1 ≠ k := by
  induction m with
  | nil => simp [mdel] at h
  | cons q t ih =>
    obtain ⟨k1, c1⟩ := q
    simp only [List.map_cons, List.nodup_cons] at hnd
    simp only [mdel] at h
    by_cases h1 : k1 = k
    · subst h1
      rw [if_pos rfl] at h
      intro he
      exact hnd.1 (he ▸ List.mem_map_of_mem Prod.fst h)
    · rw [if_neg h1] at h
      rcases List.mem_cons.mp h with rfl | h
      · exact h1
      · refine ih hnd.2 h ?_
        simpa [mget, h1] using hk

theorem mput_mput (m : List (Cid × Coro)) (k : Cid) (c c1 : Coro) :
    mput (mput m k c) k c1 = mput m k c1 := by
  induction m with
  | nil => simp [mput]
  | cons q t ih =>
    obtain ⟨k1, c2⟩ := q
    by_cases h1 : k1 = k
    · simp [mput, h1]
    · simp [mput, h1, ih]

theorem mput_eq_of_mget {m : List (Cid × Coro)} {k : Cid} {c : Coro}
    (h : mget m k = some c) : mput m k c = m := by
  induction m with
  | nil => simp [mget] at h
  | cons q t ih =>
    obtain ⟨k1, c1⟩ := q
    simp only [mget] at h
    by_cases h1 : k1 = k
    · subst h1
      rw [if_pos rfl] at h
      simp only [Option.some.injEq] at h
      simp [mput, h]
    · rw [if_neg h1] at h
      simp [mput, h1, ih h]

/-! ### State-classification helpers -/
theorem group_of_not_waiting {st : CState} (h : waiting st = false) :
    st = CState.Scheduled ∨ st = CState.Running := by
  cases st <;> simp_all [waiting]

theorem not_group_of_waiting {st : CState} (h : waiting st = true) :
    ¬(st = CState.Scheduled ∨ st = CState.Running) := by
  cases st <;> simp_all [waiting]

/-- Updating a coroutine without changing its membership class nor the
two scheduler sets preserves the invariant. -/
theorem inv_stay {s : Sched} {cid : Cid} {c d : Coro} (h : Inv s)
    (hget : mget s.coros cid = some c)
    (hgrp : d.state = CState.Scheduled ∨ d.state = CState.Running →
      c.state = CState.Scheduled ∨ c.state = CState.Running)
    (hwait : waiting d.state = true → waiting c.state = true)
    (hexc : d.exceptions ≠ [] → d.state = CState.Scheduled)
    (s' : Sched) (hc : s'.coros = mput s.coros cid d)
    (hsch : s'.scheduled = s.scheduled) (hsus : s'.suspended = s.suspended) :
    Inv s' := by
  obtain ⟨hk, hS, hM⟩ := h
  refine ⟨?_, ?_, ?_⟩
  · show (s'.coros.map Prod.fst).Nodup
    rw [hc]
    exact mput_nodup hk
  · intro p hp
    rw [hc] at hp
    rw [hsch, hsus]
    rcases mem_mput hk hp with rfl | ⟨hpm, _⟩
    · exact ⟨fun hg => (hS _ (mget_mem hget)).1 (hgrp hg),
        fun hw => (hS _ (mget_mem hget)).2 (hwait hw)⟩
    · exact hS p hpm
  · intro p hp hpe
    rw [hc] at hp
    rw [hsch]
    rcases mem_mput hk hp with rfl | ⟨hpm, _⟩
    · exact ⟨hexc hpe,
        ((hS _ (mget_mem hget)).1 (hgrp (Or.inl (hexc hpe)))).1⟩
    · exact hM p hpm hpe

/-- Moving a coroutine to the ready set in state Scheduled preserves the
invariant. -/
theorem inv_move_sched {s : Sched} {cid : Cid} {d : Coro} (h : Inv s)
    (hst : d.state = CState.Scheduled)
    (s' : Sched) (hc : s'.coros = mput s.coros cid d)
    (hsch : s'.scheduled = insert cid s.scheduled)
    (hsus : s'.suspended = s.suspended.erase cid) :
    Inv s' := by
  obtain ⟨hk, hS, hM⟩ := h
  refine ⟨?_, ?_, ?_⟩
  · show (s'.coros.map Prod.fst).Nodup
    rw [hc]
    exact mput_nodup hk
  · intro p hp
    rw [hc] at hp
    rw [hsch, hsus]
    rcases mem_mput hk hp with rfl | ⟨hpm, hne⟩
    · refine ⟨fun _ => ⟨Finset.mem_insert_self _ _, Finset.not_mem_erase _ _⟩,
        fun hw => absurd (Or.inl hst) (not_group_of_waiting hw)⟩
    · refine ⟨fun hg => ?_, fun hw => ?_⟩
      · exact ⟨Finset.mem_insert_of_mem ((hS p hpm).1 hg).1,
          fun hmem => ((hS p hpm).1 hg).2 (Finset.mem_of_mem_erase hmem)⟩
      · refine ⟨Finset.mem_erase.mpr ⟨hne, ((hS p hpm).2 hw).1⟩, fun hmem => ?_⟩
        rcases Finset.mem_insert.mp hmem with h1 | h1
        · exact hne h1
        · exact ((hS p hpm).2 hw).2 h1
  · intro p hp hpe
    rw [hc] at hp
    rw [hsch]
    rcases mem_mput hk hp with rfl | ⟨hpm, hne⟩
    · exact ⟨hst, Finset.mem_insert_self _ _⟩
    · exact ⟨(hM p hpm hpe).1, Finset.mem_insert_of_mem (hM p hpm hpe).2⟩

/-- Entering a step: marking a Scheduled coroutine Running (with any
accompanying field changes) yields a mid-step state. -/
theorem midinv_enter {s : Sched} {cid : Cid} {c d : Coro} (h : Inv s)
    (hget : mget s.coros cid = some c)
    (hst : c.state = CState.Scheduled) (hst' : d.state = CState.Running)
    (s' : Sched) (hc : s'.coros = mput s.coros cid d)
    (hsch : s'.scheduled = s.scheduled) (hsus : s'.suspended = s.suspended) :
    MidInv s' cid := by
  obtain ⟨hk, hS, hM⟩ := h
  refine ⟨?_, ?_, ?_⟩
  · show (s'.coros.map Prod.fst).Nodup
    rw [hc]
    exact mput_nodup hk
  · intro p hp hne
    rw [hc] at hp
    rw [hsch, hsus]
    rcases mem_mput hk hp with rfl | ⟨hpm, _⟩
    · exact absurd rfl hne
    · exact ⟨(hS p hpm).1, (hS p hpm).2, hM p hpm⟩
  · intro c2 hc2
    rw [hc, mget_mput_self] at hc2
    rw [hsch, hsus]
    have hmem := (hS _ (mget_mem hget)).1 (Or.inl hst)
    refine ⟨?_, hmem.1, hmem.2⟩
    rw [show c2 = d from (Option.some.injEq ..).mp hc2.symm]
    exact hst'

/-- Updating the stepped coroutine while it stays Running preserves the
mid-step state. -/
theorem midinv_stay {s : Sched} {cid : Cid} {c d : Coro}
    (h : MidInv s cid) (hget : mget s.coros cid = some c)
    (hst' : d.state = CState.Running)
    (s' : Sched) (hc : s'.coros = mput s.coros cid d)
    (hsch : s'.scheduled = s.scheduled) (hsus : s'.suspended = s.suspended) :
    MidInv s' cid := by
  obtain ⟨hk, hO, hC⟩ := h
  refine ⟨?_, ?_, ?_⟩
  · show (s'.coros.map Prod.fst).Nodup
    rw [hc]
    exact mput_nodup hk
  · intro p hp hne
    rw [hc] at hp
    rw [hsch, hsus]
    rcases mem_mput hk hp with rfl | ⟨hpm, _⟩
    · exact absurd rfl hne
    · exact hO p hpm hne
  · intro c2 hc2
    rw [hc, mget_mput_self] at hc2
    rw [hsch, hsus]
    refine ⟨?_, (hC c hget).2⟩
    rw [show c2 = d from (Option.some.injEq ..).mp hc2.symm]
    exact hst'

/-- A mid-step state with no entry for the stepped coroutine is an
invariant state. -/
theorem inv_of_midinv_noentry {s : Sched} {cid : Cid} (h : MidInv s cid)
    (hnone : mget s.coros cid = Option.none) : Inv s := by
  obtain ⟨hk, hO, _⟩ := h
  refine ⟨hk, ?_, ?_⟩
  · intro p hp
    exact ⟨(hO p hp (mget_none_forall hnone p hp)).1,
      (hO p hp (mget_none_forall hnone p hp)).2.1⟩
  · intro p hp
    exact (hO p hp (mget_none_forall hnone p hp)).2.2

/-- Finishing a step with the stepped coroutine Scheduled, or Running
with an empty exception queue, and the sets untouched. -/
theorem inv_fin {s : Sched} {cid : Cid} {c d : Coro} (h : MidInv s cid)
    (hget : mget s.coros cid = some c)
    (hst : d.state = CState.Scheduled ∨
      (d.state = CState.Running ∧ d.exceptions = []))
    (s' : Sched) (hc : s'.coros = mput s.coros cid d)
    (hsch : s'.scheduled = s.scheduled) (hsus : s'.suspended = s.suspended) :
    Inv s' := by
  obtain ⟨hk, hO, hC⟩ := h
  have hcid := hC c hget
  refine ⟨?_, ?_, ?_⟩
  · show (s'.coros.map Prod.fst).Nodup
    rw [hc]
    exact mput_nodup hk
  · intro p hp
    rw [hc] at hp
    rw [hsch, hsus]
    rcases mem_mput hk hp with rfl | ⟨hpm, hne⟩
    · constructor
      · intro _
        exact ⟨hcid.2.1, hcid.2.2⟩
      · intro hw
        rcases hst with hst | hst
        · exact absurd (Or.inl hst) (not_group_of_waiting hw)
        · exact absurd (Or.inr hst.1) (not_group_of_waiting hw)
    · exact ⟨(hO p hpm hne).1, (hO p hpm hne).2.1⟩
  · intro p hp hpe
    rw [hc] at hp
    rw [hsch]
    rcases mem_mput hk hp with rfl | ⟨hpm, hne⟩
    · rcases hst with hst | hst
      · exact ⟨hst, hcid.2.1⟩
      · exact absurd hst.2 hpe
    · exact (hO p hpm hne).2.2 hpe

/-- Finishing a step by an actual suspension: the stepped coroutine goes
to a waiting state with an empty exception queue, leaving the ready set
and entering the suspended set. -/
theorem inv_fin_susp {s : Sched} {cid : Cid} {d : Coro}
    (h : MidInv s cid)
    (hw' : waiting d.state = true) (he' : d.exceptions = [])
    (s' : Sched) (hc : s'.coros = mput s.coros cid d)
    (hsch : s'.scheduled = s.scheduled.erase cid)
    (hsus : s'.suspended = insert cid s.suspended) :
    Inv s' := by
  obtain ⟨hk, hO, hC⟩ := h
  refine ⟨?_, ?_, ?_⟩
  · show (s'.coros.map Prod.fst).Nodup
    rw [hc]
    exact mput_nodup hk
  · intro p hp
    rw [hc] at hp
    rw [hsch, hsus]
    rcases mem_mput hk hp with rfl | ⟨hpm, hne⟩
    · refine ⟨fun hg => absurd hg (not_group_of_waiting hw'), fun _ => ?_⟩
      exact ⟨Finset.mem_insert_self _ _, Finset.not_mem_erase _ _⟩
    · have hop := hO p hpm hne
      refine ⟨fun hg => ?_, fun hw => ?_⟩
      · refine ⟨Finset.mem_erase.mpr ⟨hne, (hop.1 hg).1⟩, fun hmem => ?_⟩
        rcases Finset.mem_insert.mp hmem with h1 | h1
        · exact hne h1
        · exact (hop.1 hg).2 h1
      · exact ⟨Finset.mem_insert_of_mem (hop.2.1 hw).1,
          fun hmem => (hop.2.1 hw).2 (Finset.mem_of_mem_erase hmem)⟩
  · intro p hp hpe
    rw [hc] at hp
    rw [hsch]
    rcases mem_mput hk hp with rfl | ⟨hpm, hne⟩
    · exact absurd he' hpe
    · have hop := (hO p hpm hne).2.2 hpe
      exact ⟨hop.1, Finset.mem_erase.mpr ⟨hne, hop.2⟩⟩

/-- Finishing a step by terminating the coroutine: it is removed from
the table and from the ready set. -/
theorem inv_fin_del {s : Sched} {cid : Cid} (h : MidInv s cid)
    (hget : mget s.coros cid ≠ Option.none)
    (s' : Sched) (hc : s'.coros = mdel s.coros cid)
    (hsch : s'.scheduled = s.scheduled.erase cid)
    (hsus : s'.suspended = s.suspended) :
    Inv s' := by
  obtain ⟨hk, hO, _⟩ := h
  refine ⟨?_, ?_, ?_⟩
  · show (s'.coros.map Prod.fst).Nodup
    rw [hc]
    exact mdel_nodup hk
  · intro p hp
    rw [hc] at hp
    rw [hsch, hsus]
    have hne := mem_mdel_ne hk hp hget
    have hop := hO p (mem_mdel hp) hne
    refine ⟨fun hg => ⟨Finset.mem_erase.mpr ⟨hne, (hop.1 hg).1⟩, (hop.1 hg).2⟩,
      fun hw => ⟨(hop.2.1 hw).1, fun hmem => (hop.2.1 hw).2 (Finset.mem_of_mem_erase hmem)⟩⟩
  · intro p hp hpe
    rw [hc] at hp
    rw [hsch]
    have hne := mem_mdel_ne hk hp hget
    have hop := (hO p (mem_mdel hp) hne).2.2 hpe
    exact ⟨hop.1, Finset.mem_erase.mpr ⟨hne, hop.2⟩⟩

/-- The else branch run on a mid-step (Running) coroutine always leaves
it Scheduled, whatever it yielded. -/
theorem inv_elsePath_run {s : Sched} {cid : Cid} {c : Coro}
    (h : MidInv s cid) (hget : mget s.coros cid = some c) (rv : PyVal) :
    Inv (elsePath s cid rv) := by
  have hrun := (h.2.2 c hget).1
  simp only [elsePath, hget]
  rw [if_pos hrun]
  cases hng : c.new_generator with
  | none =>
    simp only [hng, elseInstall]
    cases rv with
    | gen g2 => exact inv_fin h hget (Or.inl rfl) _ rfl rfl rfl
    | none => exact inv_fin h hget (Or.inl rfl) _ rfl rfl rfl
    | num n => exact inv_fin h hget (Or.inl rfl) _ rfl rfl rfl
  | some g =>
    simp only [hng]
    split
    · exact inv_fin h hget (Or.inl rfl) _ rfl rfl rfl
    · simp only [elseInstall]
      cases rv with
      | gen g2 => exact inv_fin h hget (Or.inl rfl) _ rfl rfl rfl
      | none => exact inv_fin h hget (Or.inl rfl) _ rfl rfl rfl
      | num n => exact inv_fin h hget (Or.inl rfl) _ rfl rfl rfl

/-- The common except tail run on a mid-step (Running) coroutine: a
frame pop leaves it Scheduled, no frames removes it. -/
theorem inv_afterExcPath {s : Sched} {cid : Cid} {c : Coro}
    (h : MidInv s cid) (hget : mget s.coros cid = some c) :
    Inv (afterExcPath s cid) := by
  have hrun := (h.2.2 c hget).1
  simp only [afterExcPath, hget]
  cases hlast : c.callers.getLast? with
  | some caller =>
    simp only [hlast]
    split
    · exact inv_fin h hget (Or.inl rfl) _ rfl rfl rfl
    · exact inv_fin h hget (Or.inl rfl) _ rfl rfl rfl
  | none =>
    simp only [hlast]
    refine inv_fin_del h ?_ _ rfl rfl rfl
    rw [hget]
    simp

/-- An actual suspension performed by the body with no further queued
exceptions and no pending hot swap finishes the else branch with the
coroutine left suspended. -/
theorem inv_elsePath_after_susp {s s4 : Sched} {cid : Cid} {d : Coro}
    (h : MidInv s cid)
    (hw : waiting d.state = true) (he : d.exceptions = [])
    (hng : d.new_generator = Option.none)
    (hc4 : s4.coros = mput s.coros cid d)
    (hsch4 : s4.scheduled = s.scheduled.erase cid)
    (hsus4 : s4.suspended = insert cid s.suspended) (n : Int) :
    Inv (elsePath s4 cid (.num n)) := by
  have hg4 : mget s4.coros cid = some d := by
    rw [hc4]
    exact mget_mput_self ..
  have hnr : ¬(d.state = CState.Running) := fun hx =>
    not_group_of_waiting hw (Or.inr hx)
  simp only [elsePath, hg4]
  rw [if_neg hnr]
  simp only [hng, elseInstall]
  refine inv_fin_susp h hw he _ ?_ ?_ ?_
  · show mput s4.coros cid d = mput s.coros cid d
    rw [hc4, mput_mput]
  · exact hsch4
  · exact hsus4

/-- The resumed body's observable action preserves the invariant when it
is well behaved (stated for the post-hot-swappable-update coroutine). -/
theorem inv_runBodyEnd {s : Sched} {cid : Cid} {c : Coro} {now : Time}
    {ending : BodyEnd} (h : MidInv s cid) (hget : mget s.coros cid = some c)
    (hsy : ∀ kind t a, ending = BodyEnd.suspendYield kind t a →
      c.exceptions = [] ∧ c.new_generator = Option.none)
    (hrh : ∀ g, ending = BodyEnd.raiseHot g →
      ¬(c.hot_swappable = true ∧ c.callers = []) → c.exceptions = []) :
    Inv (runBodyEnd s now cid ending) := by
  have hrun := (h.2.2 c hget).1
  cases ending with
  | yieldVal v => exact inv_elsePath_run h hget v
  | yieldGen g => exact inv_elsePath_run h hget (.gen g)
  | raiseStop v =>
    simp only [runBodyEnd, hget]
    cases v with
    | none =>
      refine inv_afterExcPath (c := { c with value := c.value, exceptions := [] }) ?_ ?_
      · exact midinv_stay (d := { c with value := c.value, exceptions := [] })
          h hget hrun _ rfl rfl rfl
      · exact mget_mput_self ..
    | some p =>
      refine inv_afterExcPath (c := { c with value := p, exceptions := [] }) ?_ ?_
      · exact midinv_stay (d := { c with value := p, exceptions := [] })
          h hget hrun _ rfl rfl rfl
      · exact mget_mput_self ..
  | raiseOther e =>
    simp only [runBodyEnd, hget]
    refine inv_afterExcPath
      (c := { c with exceptions := c.exceptions ++ [.other e] }) ?_ ?_
    · exact midinv_stay (d := { c with exceptions := c.exceptions ++ [.other e] })
        h hget hrun _ rfl rfl rfl
    · exact mget_mput_self ..
  | raiseHot g =>
    simp only [runBodyEnd, hget]
    split
    · exact inv_fin h hget (Or.inl rfl) _ rfl rfl rfl
    · next hinelig =>
      have hce : c.exceptions = [] := hrh g rfl hinelig
      refine inv_fin h hget (Or.inr ⟨hrun, hce⟩) _ ?_ rfl rfl
      exact (mput_eq_of_mget hget).symm
  | suspendYield kind t a =>
    obtain ⟨he, hng⟩ := hsy kind t a rfl
    simp only [runBodyEnd]
    by_cases hbt : badTimeout t = true
    · rw [show Sched._suspend s now cid t a kind = (.num (-1), s) from by
        simp [Sched._suspend, hbt]]
      exact inv_elsePath_run h hget _
    · by_cases hwk : waiting kind = true
      · cases hmp : msgPop kind c.msgs with
        | some pr =>
          rw [show Sched._suspend s now cid t a kind =
              (pr.1, { s with coros := mput s.coros cid { c with msgs := pr.2 } })
              from by simp [Sched._suspend, hbt, hwk, hget, hrun, hmp]]
          refine inv_elsePath_run (c := { c with msgs := pr.2 }) ?_ ?_ pr.1
          · exact midinv_stay (d := { c with msgs := pr.2 }) h hget hrun _ rfl rfl rfl
          · exact mget_mput_self ..
        | none =>
          cases t with
          | none =>
            rw [show Sched._suspend s now cid Option.none a kind =
                (.num 0, { s with
                  coros := mput s.coros cid
                    { c with timeout := Option.none, state := kind },
                  scheduled := s.scheduled.erase cid,
                  suspended := insert cid s.suspended })
                from by simp [Sched._suspend, hbt, hwk, hget, hrun, hmp]]
            exact inv_elsePath_after_susp
              (d := { c with timeout := Option.none, state := kind })
              h hwk he hng rfl rfl rfl 0
          | some tv =>
            by_cases ht0 : tv = 0
            · subst ht0
              rw [show Sched._suspend s now cid (some 0) a kind = (a, s) from by
                simp [Sched._suspend, hbt, hwk, hget, hrun, hmp]]
              exact inv_elsePath_run h hget _
            · rw [show Sched._suspend s now cid (some tv) a kind =
                  (.num 0, { s with
                    coros := mput s.coros cid
                      { c with timeout := some (now + tv), state := kind },
                    scheduled := s.scheduled.erase cid,
                    suspended := insert cid s.suspended,
                    timeouts := tinsert ⟨now + tv, cid, a⟩ s.timeouts })
                  from by simp [Sched._suspend, hbt, hwk, hget, hrun, hmp, ht0]]
              exact inv_elsePath_after_susp
                (d := { c with timeout := some (now + tv), state := kind })
                h hwk he hng rfl rfl rfl 0
      · have hwkf : waiting kind = false := by
          revert hwk
          cases waiting kind <;> simp
        rw [show Sched._suspend s now cid t a kind = (.num (-1), s) from by
          simp [Sched._suspend, hbt, hwkf]]
        exact inv_elsePath_run h hget _

/-- A well-behaved body action preserves the invariant. -/
theorem inv_runBody {s : Sched} {cid : Cid} {c : Coro} {now : Time}
    {act : BodyAct} (h : MidInv s cid) (hget : mget s.coros cid = some c)
    (hsy : ∀ kind t a, act.ending = BodyEnd.suspendYield kind t a →
      c.exceptions = [] ∧ c.new_generator = Option.none)
    (hrh : ∀ g, act.ending = BodyEnd.raiseHot g →
      ¬(act.setSwap.getD c.hot_swappable = true ∧ c.callers = []) →
      c.exceptions = []) :
    Inv (runBody s now cid act) := by
  have hrun := (h.2.2 c hget).1
  obtain ⟨sw, ending⟩ := act
  cases sw with
  | none =>
    simp only [runBody, setSwapApply]
    exact inv_runBodyEnd h hget (fun kind t a he => hsy kind t a he)
      (fun g he hin => hrh g he hin)
  | some fl =>
    simp only [runBody, setSwapApply, hget]
    refine inv_runBodyEnd (c := { c with hot_swappable := fl }) ?_ ?_ ?_ ?_
    case refine_1 =>
      exact midinv_stay (d := { c with hot_swappable := fl }) h hget hrun _ rfl rfl rfl
    case refine_2 =>
      exact mget_mput_self ..
    · intro kind t a he
      exact hsy kind t a he
    · intro g he hin
      exact hrh g he hin

/-- One scheduling step with a well-behaved body preserves the
invariant. -/
theorem inv_step {s : Sched} (now : Time) (cid : Cid) (act : BodyAct)
    (h : Inv s) (hwb : WellB s cid act) : Inv (Sched.step s now cid act) := by
  rcases hget : mget s.coros cid with _ | coro0
  · simp only [Sched.step, hget]
    exact h
  · have hwb1 := hwb coro0 hget
    simp only [Sched.step, hget]
    split
    · exact h
    · next hsch0 =>
      push_neg at hsch0
      rcases hexc : coro0.exceptions with _ | ⟨e, restE⟩
      · simp only [hexc]
        refine inv_runBody
          (c := { coro0 with state := CState.Running, exceptions := [] })
          ?_ ?_ ?_ ?_
        case refine_1 => exact midinv_enter h hget hsch0 rfl _ rfl rfl rfl
        case refine_2 => exact mget_mput_self ..
        case refine_3 =>
          intro kind t a he
          exact ⟨rfl, (hwb1.1 kind t a he).2⟩
        case refine_4 =>
          intro g he _
          rfl
      · cases e with
        | genExit =>
          simp only [hexc]
          refine inv_elsePath_run
            (c := { coro0 with state := CState.Running, exceptions := restE })
            ?_ ?_ s.retval
          · exact midinv_enter h hget hsch0 rfl _ rfl rfl rfl
          · exact mget_mput_self ..
        | hotSwap g2 =>
          simp only [hexc]
          refine inv_runBody
            (c := { coro0 with state := CState.Running, exceptions := restE })
            ?_ ?_ ?_ ?_
          case refine_1 => exact midinv_enter h hget hsch0 rfl _ rfl rfl rfl
          case refine_2 => exact mget_mput_self ..
          case refine_3 =>
            intro kind t a he
            have h1 := (hwb1.1 kind t a he).1
            rw [hexc, List.tail_cons] at h1
            exact ⟨h1, (hwb1.1 kind t a he).2⟩
          case refine_4 =>
            intro g he hin
            have h1 := hwb1.2 g he hin
            rwa [hexc, List.tail_cons] at h1
        | other nn =>
          simp only [hexc]
          refine inv_runBody
            (c := { coro0 with state := CState.Running, exceptions := restE })
            ?_ ?_ ?_ ?_
          case refine_1 => exact midinv_enter h hget hsch0 rfl _ rfl rfl rfl
          case refine_2 => exact mget_mput_self ..
          case refine_3 =>
            intro kind t a he
            have h1 := (hwb1.1 kind t a he).1
            rw [hexc, List.tail_cons] at h1
            exact ⟨h1, (hwb1.1 kind t a he).2⟩
          case refine_4 =>
            intro g he hin
            have h1 := hwb1.2 g he hin
            rwa [hexc, List.tail_cons] at h1

/-- The empty scheduler satisfies the invariant. -/
theorem inv_init : Inv Sched.init := by
  refine ⟨?_, ?_, ?_⟩
  · show (Sched.init.coros.map Prod.fst).Nodup
    simp [Sched.init]
  · intro p hp
    simp [Sched.init] at hp
  · intro p hp
    simp [Sched.init] at hp

/-- Registering a fresh coroutine preserves the invariant. -/
theorem inv_add {s : Sched} {cid : Cid} {g : Gen} (h : Inv s)
    (_hnone : mget s.coros cid = Option.none)
    (_hsch : cid ∉ s.scheduled) (hsus : cid ∉ s.suspended) :
    Inv (Sched._add s cid g) := by
  obtain ⟨hk, hS, hM⟩ := h
  refine ⟨mput_nodup hk, ?_, ?_⟩
  · intro p hp
    rcases mem_mput hk hp with rfl | ⟨hpm, hne⟩
    · refine ⟨fun _ => ⟨Finset.mem_insert_self _ _, hsus⟩, fun hw => ?_⟩
      simp [Coro.fresh, waiting] at hw
    · refine ⟨fun hg2 => ⟨Finset.mem_insert_of_mem ((hS p hpm).1 hg2).1,
        ((hS p hpm).1 hg2).2⟩, fun hw => ⟨((hS p hpm).2 hw).1, fun hmem => ?_⟩⟩
      rcases Finset.mem_insert.mp hmem with h1 | h1
      · exact hne h1
      · exact ((hS p hpm).2 hw).2 h1
  · intro p hp hpe
    rcases mem_mput hk hp with rfl | ⟨hpm, hne⟩
    · simp [Coro.fresh] at hpe
    · exact ⟨(hM p hpm hpe).1, Finset.mem_insert_of_mem (hM p hpm hpe).2⟩

/-- _resume preserves the invariant for any target state. -/
theorem inv_resume {s : Sched} (cid : Cid) (v : PyVal) (kind : CState)
    (h : Inv s) : Inv (Sched._resume s cid v kind).2 := by
  rcases hget : mget s.coros cid with _ | coro
  · simp only [Sched._resume, hget]
    exact h
  · simp only [Sched._resume, hget]
    split
    · refine inv_stay (d := { coro with msgs := coro.msgs ++ [(kind, v)] })
        h hget (fun x => x) (fun x => x) ?_ _ rfl rfl rfl
      intro he
      exact (h.2.2 _ (mget_mem hget) he).1
    · split
      · exact inv_move_sched
          (d := { coro with timeout := Option.none, value := v, state := CState.Scheduled })
          h rfl _ rfl rfl rfl
      · exact h

/-- _throw preserves the invariant. -/
theorem inv_throw {s : Sched} (cid : Cid) (e : Exc) (h : Inv s) :
    Inv (Sched._throw s cid e).2 := by
  rcases hget : mget s.coros cid with _ | coro
  · simp only [Sched._throw, hget]
    exact h
  · simp only [Sched._throw, hget]
    split
    · exact h
    · next hvalid =>
      push_neg at hvalid
      split
      · exact inv_move_sched
          (d := { coro with timeout := Option.none, exceptions := coro.exceptions ++ [e], state := CState.Scheduled })
          h rfl _ rfl rfl rfl
      · next hnw =>
        have hgrp : coro.state = CState.Scheduled := hvalid.resolve_right hnw
        refine inv_stay
          (d := { coro with timeout := Option.none, exceptions := coro.exceptions ++ [e] })
          h hget (fun _ => Or.inl hgrp) (fun hw => absurd hw hnw)
          (fun _ => hgrp) _ rfl rfl rfl

/-- _terminate_coro preserves the invariant. -/
theorem inv_terminate {s : Sched} (cid : Cid) (h : Inv s) :
    Inv (Sched._terminate_coro s cid).2 := by
  rcases hget : mget s.coros cid with _ | coro
  · simp only [Sched._terminate_coro, hget]
    exact h
  · simp only [Sched._terminate_coro, hget]
    split
    · exact inv_move_sched
        (d := { coro with exceptions := coro.exceptions ++ [Exc.genExit], timeout := Option.none, state := CState.Scheduled })
        h rfl _ rfl rfl rfl
    · next hnw =>
      have hb : waiting coro.state = false := by
        revert hnw
        cases waiting coro.state <;> simp
      refine inv_stay
        (d := { coro with exceptions := coro.exceptions ++ [Exc.genExit], timeout := Option.none, state := CState.Scheduled })
        h hget (fun _ => group_of_not_waiting hb)
        (fun hw => by simp [waiting] at hw) (fun _ => rfl) _ rfl rfl rfl

/-- _swap_generator preserves the invariant. -/
theorem inv_swap {s : Sched} (cid : Cid) (g : Gen) (h : Inv s) :
    Inv (Sched._swap_generator s cid g).2 := by
  rcases hget : mget s.coros cid with _ | coro
  · simp only [Sched._swap_generator, hget]
    exact h
  · simp only [Sched._swap_generator, hget]
    split
    · refine inv_stay (d := { coro with new_generator := some g })
        h hget (fun x => x) (fun x => x) ?_ _ rfl rfl rfl
      intro he
      exact (h.2.2 _ (mget_mem hget) he).1
    · next hpost =>
      push_neg at hpost
      split
      · exact inv_move_sched
          (d := { coro with timeout := Option.none, exceptions := coro.exceptions ++ [Exc.hotSwap g], state := CState.Scheduled })
          h rfl _ rfl rfl rfl
      · next hns =>
        have hgrp : coro.state = CState.Scheduled := by
          rcases hpost.2.1 with h1 | h1
          · exact h1
          · exact absurd h1 hns
        refine inv_stay
          (d := { coro with timeout := Option.none, exceptions := coro.exceptions ++ [Exc.hotSwap g] })
          h hget (fun _ => Or.inl hgrp)
          (fun hw => absurd hw (by simp [hgrp, waiting])) (fun _ => hgrp)
          _ rfl rfl rfl

/-- The timer-expiry loop preserves the invariant. -/
theorem inv_expireGo (now : Time) (l : List TimerEntry) :
    ∀ s : Sched, Inv s → Inv (expireGo now l s) := by
  induction l with
  | nil =>
    intro s h
    exact h
  | cons e rest ih =>
    intro s h
    simp only [expireGo]
    split
    · rcases hget : mget s.coros e.cid with _ | coro
      · simp only [hget]
        exact ih s h
      · simp only [hget]
        split
        · exact ih s h
        · split
          · exact ih s h
          · exact ih _ (inv_move_sched h rfl _ rfl rfl rfl)
    · exact h

/-- Timer expiry preserves the invariant. -/
theorem inv_expire {s : Sched} (now : Time) (h : Inv s) :
    Inv (Sched.expire s now) :=
  inv_expireGo _ _ _ h

/-- Every reachable scheduler state satisfies the invariant. -/
theorem reachw_inv {s : Sched} (h : ReachW s) : Inv s := by
  induction h with
  | init => exact inv_init
  | add cid g _ hfresh hsc hsu ih => exact inv_add ih hfresh hsc hsu
  | send cid m _ ih => exact inv_resume cid m _ ih
  | resume cid v _ ih => exact inv_resume cid v _ ih
  | proceed cid v _ ih => exact inv_resume cid v _ ih
  | throwR cid e _ ih => exact inv_throw cid e ih
  | terminate cid _ ih => exact inv_terminate cid ih
  | swap cid g _ ih => exact inv_swap cid g ih
  | expire now _ ih => exact inv_expire now ih
  | step now cid act _ hwb ih => exact inv_step now cid act ih hwb

theorem resume_msg_append {s : Sched} {cid : Cid} {c : Coro} (m : PyVal)
    (hget : mget s.coros cid = some c) (hna : c.state ≠ CState.AwaitMsg) :
    (Sched._resume s cid m CState.AwaitMsg).2 =
      { s with coros := mput s.coros cid { c with msgs := c.msgs ++ [(CState.AwaitMsg, m)] } } := by
  simp [Sched._resume, hget, hna]

theorem sendList_msgs {s : Sched} {cid : Cid} {c : Coro}
    (hget : mget s.coros cid = some c) (hna : c.state ≠ CState.AwaitMsg)
    (ms : List PyVal) :
    (sendList s cid ms) =
      { s with coros := mput s.coros cid { c with msgs := c.msgs ++ ms.map (fun m => (CState.AwaitMsg, m)) } } := by
  induction ms generalizing s c with
  | nil =>
    simp only [sendList, List.foldl_nil, List.map_nil, List.append_nil]
    rw [mput_eq_of_mget]
    rw [hget]
  | cons m tl ih =>
    show sendList (Sched._resume s cid m CState.AwaitMsg).2 cid tl = _
    rw [resume_msg_append m hget hna]
    rw [ih (s := { s with coros := mput s.coros cid { c with msgs := c.msgs ++ [(CState.AwaitMsg, m)] } })
        (c := { c with msgs := c.msgs ++ [(CState.AwaitMsg, m)] })
        (mget_mput_self ..) hna]
    simp [mput_mput, List.append_assoc]

theorem suspend_recv_pop {s : Sched} {cid : Cid} {c : Coro} {m : PyVal}
    {rest : List (CState × PyVal)} (now : Time) (timeout : Option Time)
    (alarm : PyVal) (hget : mget s.coros cid = some c)
    (hrun : c.state = CState.Running)
    (hmsgs : c.msgs = (CState.AwaitMsg, m) :: rest)
    (hval : badTimeout timeout = false) :
    Sched._suspend s now cid timeout alarm CState.AwaitMsg =
      (m, { s with coros := mput s.coros cid { c with msgs := rest } }) := by
  simp [Sched._suspend, hval, hget, hrun, msgPop, hmsgs, waiting]

theorem recvList_all {s : Sched} {cid : Cid} {c : Coro} (now : Time)
    (ms : List PyVal) (hget : mget s.coros cid = some c)
    (hrun : c.state = CState.Running)
    (hmsgs : c.msgs = ms.map (fun m => (CState.AwaitMsg, m))) :
    (recvList now cid ms.length s).1 = ms := by
  induction ms generalizing s c with
  | nil => rfl
  | cons m tl ih =>
    have hpop := suspend_recv_pop now Option.none PyVal.none hget hrun
      (by simpa using hmsgs) rfl
    show ((Sched._suspend s now cid Option.none PyVal.none CState.AwaitMsg).1 ::
      (recvList now cid tl.length
        (Sched._suspend s now cid Option.none PyVal.none CState.AwaitMsg).2).1) = m :: tl
    rw [hpop]
    simp only [List.cons.injEq]
    refine ⟨trivial, ?_⟩
    exact ih
      (s := { s with coros := mput s.coros cid { c with msgs := tl.map (fun m1 => (CState.AwaitMsg, m1)) } })
      (c := { c with msgs := tl.map (fun m1 => (CState.AwaitMsg, m1)) })
      (mget_mput_self ..) hrun rfl

theorem resume_msg_deliver {s : Sched} {cid : Cid} {c : Coro} (m : PyVal)
    (hget : mget s.coros cid = some c) (ha : c.state = CState.AwaitMsg) :
    Sched._resume s cid m CState.AwaitMsg =
      (PyVal.num 0, { s with
        coros := mput s.coros cid { c with timeout := Option.none, value := m, state := CState.Scheduled },
        suspended := s.suspended.erase cid,
        scheduled := insert cid s.scheduled }) := by
  simp [Sched._resume, hget, ha]

/-- Claim C1: messages sent (Coro.send, which is _resume at AwaitMsg) to
a coroutine that is not waiting in receive are appended to its mailbox
in order, and successive receive calls return them in FIFO order (the
first message sent first); a send arriving while the coroutine is
blocked in receive (state AwaitMsg) resumes it with that message, moving
it back to the ready set. -/
theorem coro_send_receive_fifo (s : Sched) (now : Time) (cid : Cid)
    (c : Coro) (hget : mget s.coros cid = some c) :
    (c.state ≠ CState.AwaitMsg → ∀ ms : List PyVal,
      sendList s cid ms =
        { s with coros := mput s.coros cid { c with msgs := c.msgs ++ ms.map (fun m => (CState.AwaitMsg, m)) } }) ∧
    (c.state = CState.Running → c.msgs = [] → ∀ ms : List PyVal,
      (recvList now cid ms.length (sendList s cid ms)).1 = ms) ∧
    (c.state = CState.AwaitMsg → ∀ m : PyVal,
      Sched._resume s cid m CState.AwaitMsg =
        (PyVal.num 0, { s with
          coros := mput s.coros cid { c with timeout := Option.none, value := m, state := CState.Scheduled },
          suspended := s.suspended.erase cid,
          scheduled := insert cid s.scheduled })) := by
  refine ⟨?_, ?_, ?_⟩
  · intro hna ms
    exact sendList_msgs hget hna ms
  · intro hrun hemp ms
    rw [sendList_msgs hget (by rw [hrun]; intro hx; cases hx) ms]
    exact recvList_all now ms
      (c := { c with msgs := c.msgs ++ ms.map (fun m => (CState.AwaitMsg, m)) })
      (mget_mput_self ..) hrun (by rw [hemp]; simp)
  · intro ha m
    exact resume_msg_deliver m hget ha

/-- Witness for C1: two messages sent to a running coroutine with an
empty mailbox are received back in order, and a send to a coroutine
blocked in receive returns 0 after resuming it. -/
theorem coro_send_receive_fifo_witness :
    (recvList 0 1 2 (sendList fixtureRun 1 [PyVal.num 7, PyVal.num 8])).1 =
      [PyVal.num 7, PyVal.num 8] ∧
    (Sched._resume fixtureWait 2 (PyVal.num 9) CState.AwaitMsg).1 = PyVal.num 0 := by
  constructor
  · exact (coro_send_receive_fifo fixtureRun 0 1 _ rfl).2.1 rfl rfl
      [PyVal.num 7, PyVal.num 8]
  · rw [(coro_send_receive_fifo fixtureWait 0 2 _ rfl).2.2 rfl (PyVal.num 9)]

/-- Counterexample to claim C4 as stated: a running coroutine with the
queued message 5; receive with timeout 0 and alarm value 7 returns the
queued message, not the alarm value. -/
theorem suspend_timeout_zero_counterexample :
    (Sched._suspend fixtureMsg 0 1 (some 0) (PyVal.num 7) CState.AwaitMsg).1 =
      PyVal.num 5 ∧
    PyVal.num 5 ≠ PyVal.num 7 := by
  constructor
  · rfl
  · decide

/-- Claim C4 (amended): for every running coroutine, suspend / await_io
/ receive with timeout 0 does not suspend: the state is returned
unchanged and the call returns the alarm value immediately — except a
receive whose mailbox holds a matching queued message, which returns
that message (removing it) instead, again without suspending or
changing the coroutine state. -/
theorem suspend_timeout_zero (s : Sched) (now : Time) (cid : Cid)
    (c : Coro) (alarm : PyVal) (kind : CState)
    (hget : mget s.coros cid = some c) (hrun : c.state = CState.Running)
    (hk : waiting kind = true) :
    (msgPop kind c.msgs = Option.none →
      Sched._suspend s now cid (some 0) alarm kind = (alarm, s)) ∧
    (∀ m rest, msgPop kind c.msgs = some (m, rest) →
      Sched._suspend s now cid (some 0) alarm kind =
        (m, { s with coros := mput s.coros cid { c with msgs := rest } })) := by
  have hbt : badTimeout (some (0 : Time)) = false := by
    simp [badTimeout]
  constructor
  · intro hmp
    simp [Sched._suspend, hbt, hk, hget, hrun, hmp]
  · intro m rest hmp
    simp [Sched._suspend, hbt, hk, hget, hrun, hmp]

/-- Witness for C4: suspend with timeout 0 on a running coroutine
returns the alarm value with the scheduler unchanged, and receive with
timeout 0 with a queued message returns the message. -/
theorem suspend_timeout_zero_witness :
    Sched._suspend fixtureRun 0 1 (some 0) (PyVal.num 3) CState.Suspended =
      (PyVal.num 3, fixtureRun) ∧
    (Sched._suspend fixtureMsg 0 1 (some 0) (PyVal.num 7) CState.AwaitMsg).1 =
      PyVal.num 5 := by
  constructor
  · exact (suspend_timeout_zero fixtureRun 0 1 _ (PyVal.num 3)
      CState.Suspended rfl rfl rfl).1 rfl
  · rw [(suspend_timeout_zero fixtureMsg 0 1 _ (PyVal.num 7)
      CState.AwaitMsg rfl rfl rfl).2 (PyVal.num 5) [] rfl]

/-- Claim C10: a receive call on a running coroutine with a non-empty
mailbox returns the earliest queued message and removes it, for every
timeout the call accepts (absent or non-negative; a negative timeout is
rejected as an invalid argument before the mailbox is read); the alarm
value is returned only when the mailbox is empty (with timeout 0). -/
theorem receive_prefers_queued (s : Sched) (now : Time) (cid : Cid)
    (c : Coro) (timeout : Option Time) (alarm : PyVal)
    (hget : mget s.coros cid = some c) (hrun : c.state = CState.Running)
    (hval : badTimeout timeout = false) :
    (∀ m rest, c.msgs = (CState.AwaitMsg, m) :: rest →
      Sched._suspend s now cid timeout alarm CState.AwaitMsg =
        (m, { s with coros := mput s.coros cid { c with msgs := rest } })) ∧
    (c.msgs = [] → timeout = some 0 →
      Sched._suspend s now cid timeout alarm CState.AwaitMsg = (alarm, s)) := by
  constructor
  · intro m rest hm
    exact suspend_recv_pop now timeout alarm hget hrun hm hval
  · intro hemp ht0
    subst ht0
    simp [Sched._suspend, hval, hget, hrun, msgPop, hemp, waiting]

/-- Witness for C10: receive with a positive timeout returns the queued
message rather than suspending, and with timeout 0 on an empty mailbox
returns the alarm value. -/
theorem receive_prefers_queued_witness :
    Sched._suspend fixtureMsg 0 1 (some 4) (PyVal.num 7) CState.AwaitMsg =
      (PyVal.num 5, { fixtureMsg with
        coros := mput fixtureMsg.coros 1 { Coro.fresh 5 with state := CState.Running } }) ∧
    Sched._suspend fixtureRun 0 1 (some 0) (PyVal.num 7) CState.AwaitMsg =
      (PyVal.num 7, fixtureRun) := by
  constructor
  · exact (receive_prefers_queued fixtureMsg 0 1 _ (some 4) (PyVal.num 7)
      rfl rfl rfl).1 (PyVal.num 5) [] rfl
  · exact (receive_prefers_queued fixtureRun 0 1 _ (some 0) (PyVal.num 7)
      rfl rfl rfl).2 rfl rfl

/-- Counterexample to claim C3 as stated, in three reachable states.
First: register coroutine 1, let it declare itself hot-swappable and
enter a sub-generator, request a hot swap (postponed, since caller
frames exist), return from the sub-generator, then sleep for 10
seconds; at the safe point ending the sleeping step the scheduler
appends the pending HotSwapException while the coroutine stays
Suspended. Second: two exceptions are thrown at a suspended-then-run
coroutine whose body catches the first and sleeps: it is left Suspended
with the second exception still queued. Third: the body answers the
first of two thrown exceptions by raising a HotSwapException it is not
eligible for: the step ends with the coroutine left Running with the
second exception still queued. In each state a live coroutine has a
non-empty exception queue without being Scheduled. -/
theorem exception_queue_scheduled_counterexample :
    ¬ InvMain (applyOp (applyOp (applyOp (applyOp (applyOp Sched.init
      (Op.add 1 10))
      (Op.stepOp 0 1 ⟨some true, BodyEnd.yieldGen 11⟩))
      (Op.swapOp 1 12))
      (Op.stepOp 0 1 ⟨Option.none, BodyEnd.raiseStop (some (PyVal.num 0))⟩))
      (Op.stepOp 0 1
        ⟨Option.none, BodyEnd.suspendYield CState.Suspended (some 10) (PyVal.num 99)⟩)) ∧
    ¬ InvMain (applyOp (applyOp (applyOp (applyOp Sched.init
      (Op.add 1 10))
      (Op.throwOp 1 (Exc.other 1)))
      (Op.throwOp 1 (Exc.other 2)))
      (Op.stepOp 0 1
        ⟨Option.none, BodyEnd.suspendYield CState.Suspended (some 5) PyVal.none⟩)) ∧
    ¬ InvMain (applyOp (applyOp (applyOp (applyOp Sched.init
      (Op.add 1 10))
      (Op.throwOp 1 (Exc.other 1)))
      (Op.throwOp 1 (Exc.other 2)))
      (Op.stepOp 0 1 ⟨Option.none, BodyEnd.raiseHot 11⟩)) := by
  refine ⟨by decide, by decide, by decide⟩

/-- Claim C3 (amended): in every scheduler state reachable by add, send,
resume, wake_io, throw, terminate, hot_swap, timer expiry and scheduling
steps with well-behaved bodies (a body neither suspends while further
thrown exceptions remain queued or a postponed hot swap is pending, nor
raises an ineligible HotSwapException while further exceptions remain
queued), every live coroutine whose exception queue is non-empty is in
state Scheduled and a member of the ready set. -/
theorem exception_queue_scheduled {s : Sched} (h : ReachW s) : InvMain s :=
  (reachw_inv h).2.2

/-- Witness for C3 at the reachable state holding one thrown-at
coroutine: after add and throw, the target has a queued exception and is
Scheduled in the ready set. -/
theorem exception_queue_scheduled_witness :
    InvMain (applyOp (applyOp Sched.init (Op.add 1 5)) (Op.throwOp 1 (Exc.other 3))) :=
  exception_queue_scheduled
    (ReachW.throwR 1 (Exc.other 3)
      (ReachW.add 1 5 ReachW.init rfl (by decide) (by decide)))

/-- Claim C6: a HotSwapException carrying generator g that reaches the
scheduler (queued at the head of the exception queue and re-raised by
the body when thrown into it): for an eligible coroutine (hot-swappable
flag set, no caller frames) the scheduler installs g as the body, clears
the value and the whole exception queue, marks the coroutine Scheduled
and leaves the mailbox untouched (the record update keeps msgs), so
every message sent before the swap is observable by the new body; for an
ineligible coroutine the swap is ignored: body, value, mailbox and the
remaining exception queue are unchanged (the coroutine is left in state
Running). -/
theorem hot_swap_step (s : Sched) (now : Time) (cid : Cid) (c : Coro)
    (g : Gen) (restE : List Exc)
    (hget : mget s.coros cid = some c) (hst : c.state = CState.Scheduled)
    (hexc : c.exceptions = Exc.hotSwap g :: restE) :
    (c.hot_swappable = true ∧ c.callers = [] →
      Sched.step s now cid ⟨Option.none, BodyEnd.raiseHot g⟩ =
        { s with
          coros := mput s.coros cid { c with gen := g, state := CState.Scheduled, exceptions := [], value := PyVal.none },
          cur := Option.none }) ∧
    (¬(c.hot_swappable = true ∧ c.callers = []) →
      Sched.step s now cid ⟨Option.none, BodyEnd.raiseHot g⟩ =
        { s with
          coros := mput s.coros cid { c with state := CState.Running, exceptions := restE },
          cur := Option.none }) := by
  have hns : ¬(c.state ≠ CState.Scheduled) := by
    rw [hst]
    exact fun hx => hx rfl
  constructor
  · intro helig
    simp only [Sched.step, hget]
    rw [if_neg hns]
    simp only [hexc, runBody, setSwapApply, runBodyEnd, mget_mput_self]
    rw [if_pos helig]
    rw [mput_mput]
  · intro hinel
    simp only [Sched.step, hget]
    rw [if_neg hns]
    simp only [hexc, runBody, setSwapApply, runBodyEnd, mget_mput_self]
    rw [if_neg hinel]

/-- Witness for C6: the eligible coroutine gets generator 9 installed
with value and exceptions cleared and the mailbox preserved; the
ineligible one keeps generator 5 and its mailbox. -/
theorem hot_swap_step_witness :
    mget (Sched.step fixtureHot 0 1 ⟨Option.none, BodyEnd.raiseHot 9⟩).coros 1 =
      some { Coro.fresh 9 with msgs := [(CState.AwaitMsg, PyVal.num 4)], hot_swappable := true } ∧
    mget (Sched.step fixtureHotIn 0 1 ⟨Option.none, BodyEnd.raiseHot 9⟩).coros 1 =
      some { Coro.fresh 5 with state := CState.Running, msgs := [(CState.AwaitMsg, PyVal.num 4)] } := by
  constructor
  · rw [(hot_swap_step fixtureHot 0 1 _ 9 [] rfl rfl rfl).1 (by decide)]
    rfl
  · rw [(hot_swap_step fixtureHotIn 0 1 _ 9 [] rfl rfl rfl).2 (by decide)]
    rfl

/-! ### Timer expiry (C5) -/
/-- A coroutine whose recorded deadline is strictly beyond the
expiry bound is not touched by the expiry loop. -/
theorem expireGo_untouched (now : Time) (l : List TimerEntry) :
    ∀ (s : Sched) (cid : Cid) (c : Coro), mget s.coros cid = some c →
    ∀ d : Time, c.timeout = some d → now < d →
    mget (expireGo now l s).coros cid = some c := by
  induction l with
  | nil =>
    intro s cid c hget d htd hfar
    exact hget
  | cons e rest ih =>
    intro s cid c hget d htd hfar
    simp only [expireGo]
    split
    · next hnow =>
      rcases hg2 : mget s.coros e.cid with _ | coro
      · simp only [hg2]
        exact ih s cid c hget d htd hfar
      · simp only [hg2]
        split
        · exact ih s cid c hget d htd hfar
        · next hstale =>
          split
          · exact ih s cid c hget d htd hfar
          · have hst2 : coro.timeout = some e.deadline := not_not.mp hstale
            have hne : e.cid ≠ cid := by
              intro heq
              rw [heq, hget] at hg2
              have hce : c = coro := Option.some.inj hg2
              rw [← hce, htd] at hst2
              have hde : d = e.deadline := Option.some.inj hst2
              rw [← hde] at hnow
              exact absurd hfar (not_lt.mpr hnow)
            refine ih _ cid c ?_ d htd hfar
            show mget (mput s.coros e.cid _) cid = some c
            rw [mget_mput_ne _ _ (Ne.symm hne)]
            exact hget
    · exact hget

/-- Once a coroutine's recorded deadline is cleared, the rest of the
expiry loop leaves it alone and keeps it in the ready set. -/
theorem expireGo_keep (now : Time) (l : List TimerEntry) :
    ∀ (s : Sched) (cid : Cid) (c : Coro), mget s.coros cid = some c →
    c.timeout = Option.none → cid ∈ s.scheduled →
    mget (expireGo now l s).coros cid = some c ∧
    cid ∈ (expireGo now l s).scheduled := by
  induction l with
  | nil =>
    intro s cid c hget ht hmem
    exact ⟨hget, hmem⟩
  | cons e rest ih =>
    intro s cid c hget ht hmem
    simp only [expireGo]
    split
    · rcases hg2 : mget s.coros e.cid with _ | coro
      · simp only [hg2]
        exact ih s cid c hget ht hmem
      · simp only [hg2]
        split
        · exact ih s cid c hget ht hmem
        · next hstale =>
          split
          · exact ih s cid c hget ht hmem
          · have hst2 : coro.timeout = some e.deadline := not_not.mp hstale
            have hne : e.cid ≠ cid := by
              intro heq
              rw [heq, hget] at hg2
              have hce : c = coro := Option.some.inj hg2
              rw [← hce, ht] at hst2
              cases hst2
            refine ih _ cid c ?_ ht ?_
            · show mget (mput s.coros e.cid _) cid = some c
              rw [mget_mput_ne _ _ (Ne.symm hne)]
              exact hget
            · exact Finset.mem_insert_of_mem hmem
    · exact ⟨hget, hmem⟩

/-- The expiry loop fires a current, due timer entry of a waiting
coroutine: the coroutine moves to the ready set in state Scheduled with
the alarm value. The entry must be the only one in the heap for this
coroutine. -/
theorem expireGo_fires (now : Time) (l : List TimerEntry) :
    ∀ (s : Sched) (cid : Cid) (c : Coro) (d : Time) (a : PyVal),
    mget s.coros cid = some c → c.timeout = some d →
    (⟨d, cid, a⟩ : TimerEntry) ∈ l →
    l.Sorted (fun x y => x.deadline ≤ y.deadline) →
    (∀ e ∈ l, e.cid = cid → e = (⟨d, cid, a⟩ : TimerEntry)) →
    waiting c.state = true → d ≤ now →
    mget (expireGo now l s).coros cid =
      some { c with timeout := Option.none, state := CState.Scheduled, value := a } ∧
    cid ∈ (expireGo now l s).scheduled := by
  induction l with
  | nil =>
    intro s cid c d a _ _ hmem _ _ _ _
    simp at hmem
  | cons e rest ih =>
    intro s cid c d a hget htd hmem hsort huniq hw hd
    by_cases he : e = (⟨d, cid, a⟩ : TimerEntry)
    · subst he
      have hred : expireGo now ((⟨d, cid, a⟩ : TimerEntry) :: rest) s =
          expireGo now rest { s with
            coros := mput s.coros cid { c with timeout := Option.none, state := CState.Scheduled, value := a },
            scheduled := insert cid s.scheduled,
            suspended := s.suspended.erase cid } := by
        simp [expireGo, hd, hget, htd, hw]
      rw [hred]
      exact expireGo_keep now rest _ cid _ (mget_mput_self ..) rfl
        (Finset.mem_insert_self _ _)
    · have hmem1 : (⟨d, cid, a⟩ : TimerEntry) ∈ rest := by
        rcases List.mem_cons.mp hmem with h1 | h1
        · exact absurd h1.symm he
        · exact h1
      have hecid : e.cid ≠ cid := fun hc =>
        he (huniq e (List.mem_cons_self _ _) hc)
      have hele : e.deadline ≤ d :=
        (List.sorted_cons.mp hsort).1 _ hmem1
      have hsort1 := (List.sorted_cons.mp hsort).2
      have huniq1 : ∀ e1 ∈ rest, e1.cid = cid → e1 = (⟨d, cid, a⟩ : TimerEntry) :=
        fun e1 h1 h2 => huniq e1 (List.mem_cons_of_mem _ h1) h2
      simp only [expireGo]
      rw [if_pos (le_trans hele hd)]
      rcases hg2 : mget s.coros e.cid with _ | coro
      · simp only [hg2]
        exact ih s cid c d a hget htd hmem1 hsort1 huniq1 hw hd
      · simp only [hg2]
        split
        · exact ih s cid c d a hget htd hmem1 hsort1 huniq1 hw hd
        · split
          · exact ih s cid c d a hget htd hmem1 hsort1 huniq1 hw hd
          · refine ih _ cid c d a ?_ htd hmem1 hsort1 huniq1 hw hd
            show mget (mput s.coros e.cid _) cid = some c
            rw [mget_mput_ne _ _ (Ne.symm hecid)]
            exact hget

/-- Counterexample to claim C5 as stated: the timer with deadline 10 is
fired by an expiry pass at monotonic time 9.9995, strictly before the
deadline, because the source grants a 1 ms slack: the coroutine is moved
to the ready set with the alarm value early. -/
theorem timer_no_early_fire_counterexample :
    (19999 / 2000 : ℚ) < 10 ∧
    mget (Sched.expire fixtureTimer (19999 / 2000)).coros 1 =
      some { Coro.fresh 5 with state := CState.Scheduled, value := PyVal.num 77 } ∧
    1 ∈ (Sched.expire fixtureTimer (19999 / 2000)).scheduled := by
  have h := expireGo_fires (19999 / 2000 + 1 / 1000) fixtureTimer.timeouts
    fixtureTimer 1 { Coro.fresh 5 with state := CState.Suspended, timeout := some 10 }
    10 (PyVal.num 77) rfl rfl
    (List.mem_singleton.mpr rfl) (List.sorted_singleton _)
    (fun e he _ => List.mem_singleton.mp he) rfl (by norm_num)
  exact ⟨by norm_num, h.1, h.2⟩

/-- Claim C5 (amended): timer expiry at monotonic time now never moves
a waiting coroutine back to the ready set while now + 0.001 is still
before its recorded absolute deadline (so it can fire at most 1 ms
early, the slack the source grants); and when its (unique, current)
heap entry with deadline d and alarm a is due (d ≤ now + 0.001) and no
other resume has occurred (the recorded deadline still matches), the
coroutine is moved to the ready set in state Scheduled carrying the
alarm value. -/
theorem timer_expiry_spec (s : Sched) (now : Time) (cid : Cid) (c : Coro)
    (d : Time) (hget : mget s.coros cid = some c)
    (htd : c.timeout = some d) :
    (now + 1 / 1000 < d →
      mget (Sched.expire s now).coros cid = some c) ∧
    (∀ a : PyVal, (⟨d, cid, a⟩ : TimerEntry) ∈ s.timeouts →
      s.timeouts.Sorted (fun x y => x.deadline ≤ y.deadline) →
      (∀ e ∈ s.timeouts, e.cid = cid → e = (⟨d, cid, a⟩ : TimerEntry)) →
      waiting c.state = true → d ≤ now + 1 / 1000 →
      mget (Sched.expire s now).coros cid =
        some { c with timeout := Option.none, state := CState.Scheduled, value := a } ∧
      cid ∈ (Sched.expire s now).scheduled) := by
  constructor
  · intro hfar
    exact expireGo_untouched (now + 1 / 1000) s.timeouts s cid c hget d htd hfar
  · intro a hmem hsort huniq hw hd
    exact expireGo_fires (now + 1 / 1000) s.timeouts s cid c d a hget htd
      hmem hsort huniq hw hd

/-- Witness for C5: the timer of fixtureTimer does not fire at time 8
(the coroutine is untouched) and fires at time 10 with alarm 77. -/
theorem timer_expiry_spec_witness :
    mget (Sched.expire fixtureTimer 8).coros 1 =
      some { Coro.fresh 5 with state := CState.Suspended, timeout := some 10 } ∧
    mget (Sched.expire fixtureTimer 10).coros 1 =
      some { Coro.fresh 5 with state := CState.Scheduled, value := PyVal.num 77 } ∧
    1 ∈ (Sched.expire fixtureTimer 10).scheduled := by
  refine ⟨?_, ?_⟩
  · exact (timer_expiry_spec fixtureTimer 8 1 _ 10 rfl rfl).1 (by norm_num)
  · exact (timer_expiry_spec fixtureTimer 10 1 _ 10 rfl rfl).2 (PyVal.num 77)
      (List.mem_singleton.mpr rfl) (List.sorted_singleton _)
      (fun e he _ => List.mem_singleton.mp he) rfl (by norm_num)

end Asyncoro
